import Mathlib

/-!
Verification of the CineScope enrichment pipeline.

The definitions below are a shallow embedding of the three enrichment stage
drivers (`scripts/enrich/01_enrich_tmdb.py`, `02_enrich_omdb.py`,
`03_enrich_ddd.py`) and of the retry logic of the TMDb HTTP client
(`src/enrichment/tmdb_client.py`).  Pandas DataFrames are modelled as a list
of rows together with a list of column names; a row is an association list
from column name to cell value, mirroring a Python dict with insertion order.
A missing key reads as the null value, which is how pandas fills absent
columns with NaN on concat.  External HTTP calls are modelled by adapter
functions supplied as inputs; a per-item exception is an explicit adapter
outcome.
-/

namespace CineScope

/-- A cell value: a string, a number (JSON/CSV numerics, `pandas.to_numeric`
results), null (Python `None` / pandas NaN), or a list of display names (the
TMDb stage stores list-valued columns). -/
inductive Val where
  | vstr : String → Val
  | vnum : Rat → Val
  | vnull : Val
  | vlist : List String → Val
deriving DecidableEq, Repr

/-- A row: a Python dict from column name to value, with insertion order. -/
abbrev Row := List (String × Val)

/-- Dict lookup. -/
def rowGet : Row → String → Option Val
  | [], _ => none
  | kv :: rest, k => if kv.1 = k then some kv.2 else rowGet rest k

/-- Reading a cell; a missing key reads as null (pandas NaN fill). -/
def getCell (r : Row) (k : String) : Val :=
  (rowGet r k).getD Val.vnull

/-- Dict assignment `d[k] = v`: overwrite in place, or append a new key. -/
def setCol : Row → String → Val → Row
  | [], k, v => [(k, v)]
  | kv :: rest, k, v => if kv.1 = k then (k, v) :: rest else kv :: setCol rest k v

/-- A sequence of dict assignments, in order. -/
def setCols (r : Row) (kvs : List (String × Val)) : Row :=
  kvs.foldl (fun acc kv => setCol acc kv.1 kv.2) r

/-- The keys of a row. -/
def rowKeys (r : Row) : List String := r.map Prod.fst

/-- A pandas DataFrame: the column index plus the rows.  Cells of a row that
are missing from `cols` are never read; cells of `cols` missing from a row
read as null. -/
structure DF where
  cols : List String
  rows : List Row
deriving DecidableEq, Repr

def emptyDF : DF := ⟨[], []⟩

/-- Appending a column name to a column index if it is new. -/
def insertCol (cs : List String) (c : String) : List String :=
  if c ∈ cs then cs else cs ++ [c]

/-- Extending a column index with all keys of one row. -/
def unionCols (cs : List String) (r : Row) : List String :=
  r.foldl (fun acc kv => insertCol acc kv.1) cs

/-- `pd.DataFrame(list_of_dicts)`: columns are the union of the keys in
insertion order, rows are kept as given (missing keys become NaN). -/
def dfOfRows (rows : List Row) : DF :=
  ⟨rows.foldl unionCols [], rows⟩

/-- `pd.concat([a, b], ignore_index=True)`: rows appended, columns unioned,
missing cells NaN. -/
def concatDF (a b : DF) : DF :=
  ⟨b.cols.foldl insertCol a.cols, a.rows ++ b.rows⟩

/-- `drop_duplicates(subset=[key], keep='last')`: a row is kept iff no later
row carries the same key value; kept rows stay in their original order. -/
def dedupKeepLast (key : String) : List Row → List Row
  | [] => []
  | r :: rest =>
    if rest.any (fun r2 => getCell r2 key == getCell r key) then
      dedupKeepLast key rest
    else
      r :: dedupKeepLast key rest

/-- The last row of a list whose `key` cell equals `k`, if any. -/
def lastWithKey (key : String) (k : Val) : List Row → Option Row
  | [] => none
  | r :: rest =>
    match lastWithKey key k rest with
    | some x => some x
    | none => if getCell r key = k then some r else none

/-- Parsing a digit run to a natural number; `none` when empty or non-digit. -/
def parseDigits? (cs : List Char) : Option Nat :=
  if cs.isEmpty then none
  else if cs.all Char.isDigit then
    some (cs.foldl (fun a c => a * 10 + (c.toNat - 48)) 0)
  else none

/-- Parsing a decimal literal (optional leading minus, optional fractional
part) to a rational; the subset of inputs `pandas.to_numeric` accepts that
this repository's data exercises. -/
def parseRat? (s : String) : Option Rat :=
  let sign : Rat := if s.startsWith "-" then -1 else 1
  let body := if s.startsWith "-" then s.drop 1 else s
  match body.splitOn "." with
  | [w] => (parseDigits? w.toList).map (fun n => sign * (n : Rat))
  | [w, f] =>
    match parseDigits? w.toList, parseDigits? f.toList with
    | some wn, some fn => some (sign * ((wn : Rat) + (fn : Rat) / ((10 : Rat) ^ f.length)))
    | _, _ => none
  | _ => none

/-- `pd.to_numeric(v, errors='coerce')`: numbers pass through, numeric
strings are parsed, everything else (null included) coerces to NaN. -/
def toNumeric : Val → Val
  | Val.vnum q => Val.vnum q
  | Val.vstr s =>
    match parseRat? s with
    | some q => Val.vnum q
    | none => Val.vnull
  | _ => Val.vnull

/-- `s.replace(',', '')` on a string value, identity otherwise. -/
def stripCommas : Val → Val
  | Val.vstr s => Val.vstr (s.replace "," "")
  | v => v

/-- `str(v)` as applied by `astype(str)` on an id column: strings unchanged,
integers rendered without a decimal point, NaN rendered as `nan`. -/
def valToStr : Val → String
  | Val.vstr s => s
  | Val.vnum q => if q.den = 1 then toString q.num else toString q
  | Val.vnull => "nan"
  | Val.vlist l => String.intercalate ", " l

/-- The shared CLI `--limit` handling: `if limit: items = items.head(limit)`.
`None` and `0` are both falsy, so neither truncates; a positive limit keeps
the first `n` rows, a negative one drops the last `|n|` rows (`df.head`). -/
def applyLimit {α : Type} (limit : Option Int) (xs : List α) : List α :=
  match limit with
  | none => xs
  | some n =>
    if n = 0 then xs
    else if 0 ≤ n then xs.take n.toNat
    else xs.take (xs.length - (-n).toNat)

/-! ## TMDb stage (`scripts/enrich/01_enrich_tmdb.py`) -/

/-- The media type returned by `TMDbClient.find_by_imdb_id` ("movie"/"tv"). -/
inductive MediaType where
  | movie
  | tv
deriving DecidableEq, Repr

def mediaTypeStr : MediaType → String
  | MediaType.movie => "movie"
  | MediaType.tv => "tv"

/-- A parsed TMDb details payload: the scalar JSON fields accessed through
`.get`, plus the list-valued fields already flattened to the display names
the source's comprehensions extract (`[g['name'] for g in ...]` and the
analogous ones for companies, countries, languages, keywords, networks). -/
structure TmdbDetails where
  fields : List (String × Val)
  genres : List String
  productionCompanies : List String
  productionCountries : List String
  spokenLanguages : List String
  keywords : List String
  originCountry : List String
  networks : List String
deriving DecidableEq, Repr

/-- A scalar field of a details payload; a missing key reads as `None`. -/
def detGet (d : TmdbDetails) (k : String) : Val :=
  (rowGet d.fields k).getD Val.vnull

/-- The combined result of the per-item TMDb lookups: the find call either
fails (`notFound`, covering "no result" and "request failed" alike — the
client returns `None` for both), or yields a media type, the optional
`basic_info.get('id')`, and the result of the subsequent details call. -/
inductive TmdbFetch where
  | notFound
  | found (mt : MediaType) (tmdbId : Option Nat) (details : Option TmdbDetails)
deriving DecidableEq, Repr

/-- An item either fetches (`TmdbFetch`) or raises, in which case the driver
logs and moves on. -/
inductive TmdbItemOutcome where
  | exn
  | fetch (f : TmdbFetch)
deriving DecidableEq, Repr

/-- The column assignments of `TMDbEnricher._parse_movie_details`, in source
order. -/
def tmdbMovieCols (d : TmdbDetails) : List (String × Val) :=
  [("tmdb_title", detGet d "title"),
   ("tmdb_original_title", detGet d "original_title"),
   ("tmdb_original_language", detGet d "original_language"),
   ("tmdb_tagline", detGet d "tagline"),
   ("tmdb_overview", detGet d "overview"),
   ("tmdb_popularity", detGet d "popularity"),
   ("tmdb_poster_path", detGet d "poster_path"),
   ("tmdb_backdrop_path", detGet d "backdrop_path"),
   ("tmdb_budget", detGet d "budget"),
   ("tmdb_revenue", detGet d "revenue"),
   ("tmdb_status", detGet d "status"),
   ("tmdb_vote_average", detGet d "vote_average"),
   ("tmdb_vote_count", detGet d "vote_count"),
   ("tmdb_release_date", detGet d "release_date"),
   ("tmdb_genres", Val.vlist d.genres),
   ("tmdb_production_companies", Val.vlist d.productionCompanies),
   ("tmdb_production_countries", Val.vlist d.productionCountries),
   ("tmdb_spoken_languages", Val.vlist d.spokenLanguages),
   ("tmdb_keywords", Val.vlist d.keywords)]

/-- The column assignments of `TMDbEnricher._parse_tv_details`, in source
order; `tmdb_production_countries` comes straight from `origin_country`. -/
def tmdbTvCols (d : TmdbDetails) : List (String × Val) :=
  [("tmdb_title", detGet d "name"),
   ("tmdb_original_title", detGet d "original_name"),
   ("tmdb_original_language", detGet d "original_language"),
   ("tmdb_tagline", detGet d "tagline"),
   ("tmdb_overview", detGet d "overview"),
   ("tmdb_popularity", detGet d "popularity"),
   ("tmdb_poster_path", detGet d "poster_path"),
   ("tmdb_backdrop_path", detGet d "backdrop_path"),
   ("tmdb_status", detGet d "status"),
   ("tmdb_vote_average", detGet d "vote_average"),
   ("tmdb_vote_count", detGet d "vote_count"),
   ("tmdb_first_air_date", detGet d "first_air_date"),
   ("tmdb_last_air_date", detGet d "last_air_date"),
   ("tmdb_number_of_seasons", detGet d "number_of_seasons"),
   ("tmdb_number_of_episodes", detGet d "number_of_episodes"),
   ("tmdb_genres", Val.vlist d.genres),
   ("tmdb_production_companies", Val.vlist d.productionCompanies),
   ("tmdb_production_countries", Val.vlist d.originCountry),
   ("tmdb_spoken_languages", Val.vlist d.spokenLanguages),
   ("tmdb_keywords", Val.vlist d.keywords),
   ("tmdb_networks", Val.vlist d.networks)]

def tmdbParseMovieDetails (r : Row) (d : TmdbDetails) : Row :=
  setCols r (tmdbMovieCols d)

def tmdbParseTvDetails (r : Row) (d : TmdbDetails) : Row :=
  setCols r (tmdbTvCols d)

/-- `TMDbEnricher._process_item`: start from the row's dict; if the find call
returned nothing, or the basic info has no (truthy) id, return it unchanged;
otherwise set `tmdb_id` and `tmdb_media_type`, and flatten the details if the
details call succeeded. -/
def tmdbProcessItem (row : Row) (f : TmdbFetch) : Row :=
  match f with
  | TmdbFetch.notFound => row
  | TmdbFetch.found mt tmdbId details =>
    match tmdbId with
    | none => row
    | some i =>
      if i = 0 then row
      else
        let r := setCol row "tmdb_id" (Val.vnum i)
        let r := setCol r "tmdb_media_type" (Val.vstr (mediaTypeStr mt))
        match mt, details with
        | MediaType.movie, some d => tmdbParseMovieDetails r d
        | MediaType.tv, some d => tmdbParseTvDetails r d
        | _, none => r

/-- `TMDbEnricher._get_items_to_process`: everything when the destination is
empty, otherwise the source rows whose `const`, cast with `astype(str)`, is
not among the destination's `astype(str)` consts. -/
def tmdbGetItemsToProcess (source dest : DF) : List Row :=
  if dest.rows.isEmpty then source.rows
  else
    let ids := dest.rows.map (fun r => valToStr (getCell r "const"))
    source.rows.filter (fun r => decide (valToStr (getCell r "const") ∉ ids))

/-- One checkpoint write: the buffer of newly enriched rows that was saved
together with the file contents written. -/
structure TmdbSave where
  buffer : List Row
  file : DF
deriving DecidableEq, Repr

/-- Outcome of one `_save_checkpoint` call. -/
inductive SaveResult where
  | noWrite
  | raised
  | wrote (d : DF)
deriving DecidableEq, Repr

/-- `TMDbEnricher._save_checkpoint`: a no-op on an empty buffer; otherwise
`pd.concat` of the destination with the buffer frame followed by
`drop_duplicates(subset=['const'], keep='last')`.  `dest_df.columns[0]`
raises `IndexError` on an empty column index, and
`set_index(dest_df.columns[0])` raises `KeyError` when that column is absent
from the buffer frame; both surface as `raised`. -/
def tmdbSaveCheckpoint (dest : DF) (newData : List Row) : SaveResult :=
  if newData.isEmpty then SaveResult.noWrite
  else
    match dest.cols.head? with
    | none => SaveResult.raised
    | some c =>
      if c ∈ (dfOfRows newData).cols then
        SaveResult.wrote
          ⟨(concatDF dest (dfOfRows newData)).cols,
           dedupKeepLast "const" (concatDF dest (dfOfRows newData)).rows⟩
      else SaveResult.raised

/-- The TMDb run loop: process each pending row; on success append it to the
buffer and, when the buffer length is a multiple of 10, attempt a checkpoint
(a raise inside the per-item `try` is swallowed); on a per-item exception
skip the row. -/
def tmdbLoop (adapter : Val → TmdbItemOutcome) (dest : DF) :
    List Row → List Row → List TmdbSave → List Row × List TmdbSave
  | [], acc, ws => (acc, ws)
  | row :: rest, acc, ws =>
    match adapter (getCell row "const") with
    | TmdbItemOutcome.exn => tmdbLoop adapter dest rest acc ws
    | TmdbItemOutcome.fetch f =>
      let acc2 := acc ++ [tmdbProcessItem row f]
      if acc2.length % 10 = 0 then
        match tmdbSaveCheckpoint dest acc2 with
        | SaveResult.wrote d => tmdbLoop adapter dest rest acc2 (ws ++ [⟨acc2, d⟩])
        | _ => tmdbLoop adapter dest rest acc2 ws
      else tmdbLoop adapter dest rest acc2 ws

structure TmdbRunResult where
  processed : List Row
  writes : List TmdbSave
  raisedAtEnd : Bool
deriving DecidableEq, Repr

/-- `TMDbEnricher._load_or_initialize_dest_df`: the prior output unless
`--force` or none exists, in which case an empty frame. -/
def tmdbLoadDest (prevOut : Option DF) (force : Bool) : DF :=
  match prevOut with
  | some d => if force then emptyDF else d
  | none => emptyDF

/-- The body of `TMDbEnricher.run` after source/destination/work-list
resolution: an empty work-list returns early without touching files;
otherwise the loop runs and a final `_save_checkpoint` follows.  A raise in
that final save escapes `run` (the process exits 1). -/
def tmdbRunCore (adapter : Val → TmdbItemOutcome) (dest : DF)
    (pending : List Row) : TmdbRunResult :=
  if pending.isEmpty then ⟨[], [], false⟩
  else
    match tmdbSaveCheckpoint dest (tmdbLoop adapter dest pending [] []).1 with
    | SaveResult.wrote d =>
      ⟨(tmdbLoop adapter dest pending [] []).1,
       (tmdbLoop adapter dest pending [] []).2
         ++ [⟨(tmdbLoop adapter dest pending [] []).1, d⟩], false⟩
    | SaveResult.noWrite =>
      ⟨(tmdbLoop adapter dest pending [] []).1,
       (tmdbLoop adapter dest pending [] []).2, false⟩
    | SaveResult.raised =>
      ⟨(tmdbLoop adapter dest pending [] []).1,
       (tmdbLoop adapter dest pending [] []).2, true⟩

/-- `TMDbEnricher.run`: load source and destination, compute the pending
work-list, truncate it by `--limit`, then run the loop and final save. -/
def tmdbRun (source : DF) (prevOut : Option DF) (force : Bool) (limit : Option Int)
    (adapter : Val → TmdbItemOutcome) : TmdbRunResult :=
  tmdbRunCore adapter (tmdbLoadDest prevOut force)
    (applyLimit limit (tmdbGetItemsToProcess source (tmdbLoadDest prevOut force)))

/-- The output file on disk after a run: the last write, or the prior file if
the run never wrote. -/
def tmdbFinalFile (prev : DF) (res : TmdbRunResult) : DF :=
  ((res.writes.getLast?).map TmdbSave.file).getD prev

/-! ## OMDb stage (`scripts/enrich/02_enrich_omdb.py`) -/

/-- `OMDbEnricher.DAILY_LIMIT`: the self-imposed daily call threshold, kept
below OMDb's hard cap of 1000. -/
def DAILY_LIMIT : Nat := 980

/-- The quota/status record persisted in `omdb_enrichment_status.json`. -/
structure QuotaStatus where
  calls_today : Nat
  last_run_date : String
  enriched_ids : List Val
deriving DecidableEq, Repr

/-- `OMDbEnricher._load_status`: when a status file exists and its stored
date differs from today, reset `calls_today` to 0 and stamp today's date;
otherwise keep it; with no file, start fresh. -/
def loadStatus (stored : Option QuotaStatus) (today : String) : QuotaStatus :=
  match stored with
  | some st =>
    if st.last_run_date ≠ today then ⟨0, today, st.enriched_ids⟩ else st
  | none => ⟨0, today, []⟩

/-- One entry of OMDb's `Ratings` array: `rating.get('Source', '')` and
`rating.get('Value')`. -/
structure OMDbRating where
  source : String
  value : Val
deriving DecidableEq, Repr

/-- A parsed OMDb response with `Response == "True"`: the scalar JSON fields
plus the `Ratings` array. -/
structure OMDbDetails where
  fields : List (String × Val)
  ratings : List OMDbRating
deriving DecidableEq, Repr

/-- The ratings demultiplexer inside `OMDbEnricher._process_item`: label
matched after replacing spaces with underscores; unrecognized labels are
dropped. -/
def omdbApplyRatings (r : Row) (ratings : List OMDbRating) : Row :=
  ratings.foldl
    (fun acc rt =>
      let s := rt.source.replace " " "_"
      if s = "Internet_Movie_Database" then setCol acc "omdb_rating_imdb" rt.value
      else if s = "Rotten_Tomatoes" then setCol acc "omdb_rating_rotten_tomatoes" rt.value
      else if s = "Metacritic" then setCol acc "omdb_rating_metacritic" rt.value
      else acc)
    r

/-- `OMDbEnricher._process_item`: start from the row's dict; if the client
found nothing (not found or request failed), return it unchanged; otherwise
set the `omdb_*` columns and demultiplex `Ratings`. -/
def omdbProcessItem (row : Row) (details : Option OMDbDetails) : Row :=
  match details with
  | none => row
  | some d =>
    let g := fun k => (rowGet d.fields k).getD Val.vnull
    let r := setCols row
      [("omdb_title", g "Title"),
       ("omdb_rated", g "Rated"),
       ("omdb_released", g "Released"),
       ("omdb_plot", g "Plot"),
       ("omdb_language", g "Language"),
       ("omdb_country", g "Country"),
       ("omdb_awards", g "Awards"),
       ("omdb_metascore", toNumeric (g "Metascore")),
       ("omdb_imdb_rating", toNumeric (g "imdbRating")),
       ("omdb_imdb_votes", toNumeric (stripCommas ((rowGet d.fields "imdbVotes").getD (Val.vstr "")))),
       ("omdb_box_office", g "BoxOffice"),
       ("omdb_dvd_release", g "DVD"),
       ("omdb_production_co", g "Production")]
    omdbApplyRatings r d.ratings

/-- `OMDbEnricher._get_items_to_process`: everything when the destination
lacks an `omdb_title` column; otherwise the source rows whose raw `const`
value is not among the consts of destination rows with a non-null
`omdb_title`.  No `astype(str)` normalization here. -/
def omdbGetItemsToProcess (source dest : DF) : List Row :=
  if "omdb_title" ∈ dest.cols then
    let processed :=
      (dest.rows.filter (fun r => decide (getCell r "omdb_title" ≠ Val.vnull))).map
        (fun r => getCell r "const")
    source.rows.filter (fun r => decide (getCell r "const" ∉ processed))
  else source.rows

/-- A per-item OMDb outcome: the client returns a parsed record or nothing,
or the body raises (logged, the loop moves on without counting a call). -/
inductive OmdbOutcome where
  | exn
  | ok (details : Option OMDbDetails)
deriving Repr

/-- The OMDb run loop: before each item, stop for the rest of the run once
`calls_today` has reached the daily limit; on success append the processed
row and count one call; on a per-item exception skip the row.  Returns the
buffered rows, the final counter, and whether the limit stop fired. -/
def omdbLoop (adapter : Val → OmdbOutcome) (lim : Nat) :
    List Row → Nat → List Row × Nat × Bool
  | [], calls => ([], calls, false)
  | row :: rest, calls =>
    if lim ≤ calls then ([], calls, true)
    else
      match adapter (getCell row "const") with
      | OmdbOutcome.ok details =>
        let r := omdbLoop adapter lim rest (calls + 1)
        (omdbProcessItem row details :: r.1, r.2)
      | OmdbOutcome.exn => omdbLoop adapter lim rest calls

structure OmdbRunResult where
  processed : List Row
  fileWrites : List DF
  statusWrites : List QuotaStatus
  finalStatus : QuotaStatus
  exhausted : Bool
deriving Repr

/-- `OMDbEnricher.run`: destination is the prior output unless `--force` or
none exists (then the source frame itself); an empty work-list returns early
without saving anything; otherwise the loop runs, and at the end the buffer
(if non-empty) is appended to the destination with `pd.concat` — with no
de-duplication — and written once, followed by one `_save_status`. -/
def omdbLoadDest (source : DF) (prevOut : Option DF) (force : Bool) : DF :=
  match prevOut with
  | some d => if force then source else d
  | none => source

/-- The body of `OMDbEnricher.run` after source/destination/work-list
resolution. -/
def omdbRunCore (adapter : Val → OmdbOutcome) (dest : DF) (pending : List Row)
    (st : QuotaStatus) : OmdbRunResult :=
  if pending.isEmpty then ⟨[], [], [], st, false⟩
  else
    let r := omdbLoop adapter DAILY_LIMIT pending st.calls_today
    let st1 : QuotaStatus := ⟨r.2.1, st.last_run_date, st.enriched_ids⟩
    if r.1.isEmpty then ⟨[], [], [st1], st1, r.2.2⟩
    else
      let fileOut := concatDF dest (dfOfRows r.1)
      let st2 : QuotaStatus :=
        ⟨st1.calls_today, st1.last_run_date,
         st1.enriched_ids ++ r.1.map (fun row => getCell row "const")⟩
      ⟨r.1, [fileOut], [st2], st2, r.2.2⟩

def omdbRun (source : DF) (prevOut : Option DF) (force : Bool) (limit : Option Int)
    (adapter : Val → OmdbOutcome) (st : QuotaStatus) : OmdbRunResult :=
  omdbRunCore adapter (omdbLoadDest source prevOut force)
    (applyLimit limit (omdbGetItemsToProcess source (omdbLoadDest source prevOut force)))
    st

structure OmdbInterrupted where
  fileWrites : List DF
  statusWrites : List QuotaStatus
  memCalls : Nat
  persistedStatus : QuotaStatus
deriving Repr

/-- An OMDb run cut short by `KeyboardInterrupt` before its (k+1)-th loop
iteration.  The per-item handler catches only `Exception`, so the interrupt
unwinds `run` before the `to_csv` and `_save_status` lines; `main` catches
it and exits 0.  Nothing is written: the in-memory call counter (`memCalls`)
is lost and the persisted status stays as loaded. -/
def omdbRunInterrupted (source : DF) (prevOut : Option DF) (force : Bool)
    (limit : Option Int) (adapter : Val → OmdbOutcome) (st : QuotaStatus)
    (k : Nat) : OmdbInterrupted :=
  if (applyLimit limit (omdbGetItemsToProcess source
      (omdbLoadDest source prevOut force))).isEmpty then
    ⟨[], [], st.calls_today, st⟩
  else
    ⟨[], [],
     (omdbLoop adapter DAILY_LIMIT
       ((applyLimit limit (omdbGetItemsToProcess source
         (omdbLoadDest source prevOut force))).take k) st.calls_today).2.1,
     st⟩

/-! ## DDD stage (`scripts/enrich/03_enrich_ddd.py`) -/

/-- One entry of `topicItemStats`: `trigger.get('topic')` may be missing or
falsy (then the entry is skipped), the topic's `name` may be missing
(defaulted to "unknown"), and the vote sums default to 0. -/
structure DddTopic where
  name : Option String
deriving DecidableEq, Repr

structure DddTopicStat where
  topic : Option DddTopic
  yesSum : Nat
  noSum : Nat
deriving DecidableEq, Repr

/-- A DDD payload that has both an `item` and `topicItemStats`; anything
less is treated as not found by `_process_item`. -/
structure DddData where
  itemId : Val
  topicItemStats : List DddTopicStat
deriving DecidableEq, Repr

inductive DddOutcome where
  | exn
  | ok (res : Option DddData)
deriving Repr

/-- `DDDEnricher._process_item`: returns only the new columns.  Absence is
marked with the `"NOT_FOUND"` sentinel in `ddd_id`; otherwise `ddd_id` is the
internal id and each topic pivots into a `ddd_<name>` column whose value
categorizes the vote tallies. -/
def dddProcessItem (res : Option DddData) : Row :=
  match res with
  | none => [("ddd_id", Val.vstr "NOT_FOUND")]
  | some d =>
    let r : Row := [("ddd_id", d.itemId)]
    d.topicItemStats.foldl
      (fun acc t =>
        match t.topic with
        | none => acc
        | some tp =>
          let cname := "ddd_" ++ ((tp.name.getD "unknown").toLower.replace " " "_")
          let v :=
            if t.noSum < t.yesSum then "Yes"
            else if t.yesSum < t.noSum then "No"
            else if 0 < t.yesSum then "Controversial"
            else "No Votes"
          setCol acc cname (Val.vstr v))
      r

/-- `DDDEnricher._get_items_to_process`: rows (with their frame index) whose
`ddd_id` is null, or all rows when the column does not exist.  The
`"NOT_FOUND"` string is not null, so it counts as done. -/
def dddGetItemsToProcess (df : DF) : List (Nat × Row) :=
  if "ddd_id" ∈ df.cols then
    df.rows.enum.filter (fun p => decide (getCell p.2 "ddd_id" = Val.vnull))
  else df.rows.enum

/-- The first update row registered for frame index `i`, if any. -/
def findUpd : List (Nat × Row) → Nat → Option Row
  | [], _ => none
  | p :: rest, i => if p.1 = i then some p.2 else findUpd rest i

/-- One row under `DataFrame.update`: for each key of the update row, the
cell is overwritten only when that key is an existing column of the frame
and the update value is non-null; keys not present as columns are ignored
(pandas `update` never adds columns). -/
def applyUpd (cols : List String) (r u : Row) : Row :=
  u.foldl
    (fun acc kv =>
      if kv.1 ∈ cols ∧ kv.2 ≠ Val.vnull then setCol acc kv.1 kv.2 else acc)
    r

/-- `dest_df.update(pd.DataFrame(data, index=indices))`: align by frame index
and column name, update cells with non-null values, keep the column set. -/
def dfUpdate (dest : DF) (updates : List (Nat × Row)) : DF :=
  ⟨dest.cols,
   dest.rows.enum.map
     (fun p =>
       match findUpd updates p.1 with
       | none => p.2
       | some u => applyUpd dest.cols p.2 u)⟩

/-- The DDD run loop: on success record the new columns against the row's
frame index and, every 20 collected items, fold them into the (mutated)
destination frame and write it; on a per-item exception skip the row. -/
def dddLoop (adapter : Val → DddOutcome) :
    List (Nat × Row) → DF → List (Nat × Row) → List DF → DF × List (Nat × Row) × List DF
  | [], dest, acc, ws => (dest, acc, ws)
  | p :: rest, dest, acc, ws =>
    match adapter (getCell p.2 "const") with
    | DddOutcome.exn => dddLoop adapter rest dest acc ws
    | DddOutcome.ok res =>
      let acc2 := acc ++ [(p.1, dddProcessItem res)]
      if acc2.length % 20 = 0 then
        let dest2 := dfUpdate dest acc2
        dddLoop adapter rest dest2 acc2 (ws ++ [dest2])
      else dddLoop adapter rest dest acc2 ws

structure DddRunResult where
  processed : List (Nat × Row)
  writes : List DF
deriving Repr

/-- `DDDEnricher.run`: destination is the prior output unless `--force` or
none exists (then a copy of the source); pending comes from the destination
frame; an empty work-list returns early; otherwise the loop runs and, if
anything was collected, a final update-and-write follows. -/
def dddLoadDest (source : DF) (prevOut : Option DF) (force : Bool) : DF :=
  match prevOut with
  | some d => if force then source else d
  | none => source

/-- The body of `DDDEnricher.run` after source/destination/work-list
resolution. -/
def dddRunCore (adapter : Val → DddOutcome) (dest : DF)
    (pending : List (Nat × Row)) : DddRunResult :=
  if pending.isEmpty then ⟨[], []⟩
  else
    let r := dddLoop adapter pending dest [] []
    if r.2.1.isEmpty then ⟨r.2.1, r.2.2⟩
    else
      let destF := dfUpdate r.1 r.2.1
      ⟨r.2.1, r.2.2 ++ [destF]⟩

def dddRun (source : DF) (prevOut : Option DF) (force : Bool) (limit : Option Int)
    (adapter : Val → DddOutcome) : DddRunResult :=
  dddRunCore adapter (dddLoadDest source prevOut force)
    (applyLimit limit (dddGetItemsToProcess (dddLoadDest source prevOut force)))

/-! ## TMDb HTTP client retry (`src/enrichment/tmdb_client.py`) -/

/-- What the server answers to one request: a JSON payload, HTTP 429, some
other HTTP error, or a transport failure. -/
inductive TmdbResp where
  | success (payload : Nat)
  | http429
  | httpErr
  | netErr
deriving DecidableEq, Repr

/-- `TMDbClient._make_request` against a queue of responses, one consumed per
request: 429 sleeps 10 seconds and recurses on the same endpoint with no
retry cap; any other HTTP error or transport failure returns `None`. -/
def makeRequest : List TmdbResp → Option Nat
  | [] => none
  | TmdbResp.success p :: _ => some p
  | TmdbResp.http429 :: rest => makeRequest rest
  | TmdbResp.httpErr :: _ => none
  | TmdbResp.netErr :: _ => none

/-- How many requests `_make_request` issues against a response queue. -/
def requestCount : List TmdbResp → Nat
  | [] => 0
  | TmdbResp.http429 :: rest => 1 + requestCount rest
  | _ :: _ => 1

/-- Modelled from the spec: the claimed "bounded wait-and-retry: a single
retry after a fixed backoff delay, after which the request is given up" —
one retry on 429, and if the retry is not a success the request fails. -/
def makeRequestSingleRetry : List TmdbResp → Option Nat
  | [] => none
  | TmdbResp.success p :: _ => some p
  | TmdbResp.httpErr :: _ => none
  | TmdbResp.netErr :: _ => none
  | TmdbResp.http429 :: rest =>
    match rest with
    | TmdbResp.success p :: _ => some p
    | _ => none

/-! ## Basic lemmas about rows and frames -/

theorem rowGet_setCol (r : Row) (k k2 : String) (v : Val) :
    rowGet (setCol r k2 v) k = if k2 = k then some v else rowGet r k := by
  induction r with
  | nil =>
    by_cases h : k2 = k
    · simp [setCol, rowGet, h]
    · simp [setCol, rowGet, h]
  | cons kv rest ih =>
    by_cases h1 : kv.1 = k2
    · rw [show setCol (kv :: rest) k2 v = (k2, v) :: rest from by simp [setCol, h1]]
      by_cases h2 : k2 = k
      · simp [rowGet, h2]
      · have h3 : ¬ kv.1 = k := fun he => h2 (h1 ▸ he)
        simp [rowGet, h2, h3]
    · rw [show setCol (kv :: rest) k2 v = kv :: setCol rest k2 v from by
        simp [setCol, h1]]
      by_cases h2 : kv.1 = k
      · have h3 : ¬ k2 = k := fun he => h1 (by rw [h2, he])
        simp [rowGet, h2, h3]
      · simp [rowGet, h2, ih]

theorem getCell_setCol (r : Row) (k k2 : String) (v : Val) :
    getCell (setCol r k2 v) k = if k2 = k then v else getCell r k := by
  by_cases h : k2 = k <;> simp [getCell, rowGet_setCol, h]

theorem getCell_setCol_ne (r : Row) (k k2 : String) (v : Val) (h : k2 ≠ k) :
    getCell (setCol r k2 v) k = getCell r k := by
  simp [getCell_setCol, h]

theorem getCell_setCols_notMem (kvs : List (String × Val)) :
    ∀ (r : Row) (k : String), k ∉ kvs.map Prod.fst →
      getCell (setCols r kvs) k = getCell r k := by
  induction kvs with
  | nil => intro r k _; rfl
  | cons kv rest ih =>
    intro r k h
    simp only [List.map_cons, List.mem_cons, not_or] at h
    show getCell (setCols (setCol r kv.1 kv.2) rest) k = getCell r k
    rw [ih _ k h.2, getCell_setCol_ne _ _ _ _ (fun he => h.1 he.symm)]

theorem mem_rowKeys_setCol (r : Row) (k k2 : String) (v : Val) (h : k ∈ rowKeys r) :
    k ∈ rowKeys (setCol r k2 v) := by
  induction r with
  | nil => simp [rowKeys] at h
  | cons kv rest ih =>
    simp only [rowKeys, List.map_cons, List.mem_cons] at h
    by_cases h1 : kv.1 = k2
    · rw [show setCol (kv :: rest) k2 v = (k2, v) :: rest from by simp [setCol, h1]]
      simp only [rowKeys, List.map_cons, List.mem_cons]
      rcases h with h | h
      · exact Or.inl (h.trans h1)
      · exact Or.inr h
    · rw [show setCol (kv :: rest) k2 v = kv :: setCol rest k2 v from by
        simp [setCol, h1]]
      simp only [rowKeys, List.map_cons, List.mem_cons]
      rcases h with h | h
      · exact Or.inl h
      · exact Or.inr (ih h)

theorem mem_rowKeys_setCols (kvs : List (String × Val)) :
    ∀ (r : Row) (k : String), k ∈ rowKeys r → k ∈ rowKeys (setCols r kvs) := by
  induction kvs with
  | nil => intro r k h; exact h
  | cons kv rest ih =>
    intro r k h
    show k ∈ rowKeys (setCols (setCol r kv.1 kv.2) rest)
    exact ih _ k (mem_rowKeys_setCol r k kv.1 kv.2 h)

theorem mem_insertCol_self (cs : List String) (c : String) : c ∈ insertCol cs c := by
  by_cases h : c ∈ cs <;> simp [insertCol, h]

theorem mem_insertCol_mono (cs : List String) (c a : String) (h : a ∈ cs) :
    a ∈ insertCol cs c := by
  by_cases hc : c ∈ cs <;> simp [insertCol, hc, h]

theorem mem_unionCols_mono (r : Row) :
    ∀ (cs : List String) (a : String), a ∈ cs → a ∈ unionCols cs r := by
  induction r with
  | nil => intro cs a h; exact h
  | cons kv rest ih =>
    intro cs a h
    show a ∈ unionCols (insertCol cs kv.1) rest
    exact ih _ a (mem_insertCol_mono cs kv.1 a h)

theorem mem_unionCols_of_key (r : Row) :
    ∀ (cs : List String) (a : String), a ∈ rowKeys r → a ∈ unionCols cs r := by
  induction r with
  | nil => intro cs a h; simp [rowKeys] at h
  | cons kv rest ih =>
    intro cs a h
    simp only [rowKeys, List.map_cons, List.mem_cons] at h
    show a ∈ unionCols (insertCol cs kv.1) rest
    rcases h with h | h
    · exact mem_unionCols_mono rest _ a (h ▸ mem_insertCol_self cs kv.1)
    · exact ih (insertCol cs kv.1) a h

theorem mem_foldl_unionCols_mono (rows : List Row) :
    ∀ (cs : List String) (a : String), a ∈ cs → a ∈ rows.foldl unionCols cs := by
  induction rows with
  | nil => intro cs a h; exact h
  | cons r rest ih =>
    intro cs a h
    show a ∈ rest.foldl unionCols (unionCols cs r)
    exact ih _ a (mem_unionCols_mono r cs a h)

theorem mem_foldl_unionCols_of_mem (rows : List Row) :
    ∀ (cs : List String) (r : Row) (a : String), r ∈ rows → a ∈ rowKeys r →
      a ∈ rows.foldl unionCols cs := by
  induction rows with
  | nil => intro cs r a hr _; cases hr
  | cons r0 rest ih =>
    intro cs r a hr ha
    show a ∈ rest.foldl unionCols (unionCols cs r0)
    rcases List.mem_cons.mp hr with h | h
    · exact mem_foldl_unionCols_mono rest _ a (mem_unionCols_of_key r0 cs a (h ▸ ha))
    · exact ih _ r a h ha

theorem mem_dfOfRows_cols (rows : List Row) (r : Row) (a : String)
    (hr : r ∈ rows) (ha : a ∈ rowKeys r) : a ∈ (dfOfRows rows).cols :=
  mem_foldl_unionCols_of_mem rows [] r a hr ha

theorem filter_nil_of {α : Type} (p : α → Bool) (l : List α)
    (h : ∀ a ∈ l, p a = false) : l.filter p = [] := by
  induction l with
  | nil => rfl
  | cons a rest ih =>
    simp only [List.filter_cons, h a (List.mem_cons_self a rest),
      Bool.false_eq_true, if_false]
    exact ih (fun b hb => h b (List.mem_cons_of_mem a hb))

/-! ## Lemmas about `drop_duplicates(keep='last')` -/

theorem mem_of_mem_dedupKeepLast (key : String) (rows : List Row) (r : Row)
    (h : r ∈ dedupKeepLast key rows) : r ∈ rows := by
  induction rows with
  | nil => simp [dedupKeepLast] at h
  | cons r0 rest ih =>
    by_cases h0 : rest.any (fun r2 => getCell r2 key == getCell r0 key)
    · rw [show dedupKeepLast key (r0 :: rest) = dedupKeepLast key rest from by
        simp [dedupKeepLast, h0]] at h
      exact List.mem_cons_of_mem r0 (ih h)
    · rw [show dedupKeepLast key (r0 :: rest) = r0 :: dedupKeepLast key rest from by
        simp [dedupKeepLast, h0]] at h
      rcases List.mem_cons.mp h with h | h
      · exact h ▸ List.mem_cons_self r0 rest
      · exact List.mem_cons_of_mem r0 (ih h)

theorem dedupKeepLast_covers (key : String) (rows : List Row) :
    ∀ r ∈ rows,
      ∃ r2, r2 ∈ dedupKeepLast key rows ∧ getCell r2 key = getCell r key := by
  induction rows with
  | nil => intro r h; cases h
  | cons r0 rest ih =>
    intro r h
    by_cases h0 : rest.any (fun r2 => getCell r2 key == getCell r0 key)
    · rw [show dedupKeepLast key (r0 :: rest) = dedupKeepLast key rest from by
        simp [dedupKeepLast, h0]]
      rcases List.mem_cons.mp h with h | h
      · rcases List.any_eq_true.mp h0 with ⟨r3, hr3, he⟩
        rcases ih r3 hr3 with ⟨r2, hmem, hkey⟩
        refine ⟨r2, hmem, ?_⟩
        rw [hkey, beq_iff_eq.mp he, h]
      · exact ih r h
    · rw [show dedupKeepLast key (r0 :: rest) = r0 :: dedupKeepLast key rest from by
        simp [dedupKeepLast, h0]]
      rcases List.mem_cons.mp h with h | h
      · exact ⟨r0, List.mem_cons_self _ _, by rw [h]⟩
      · rcases ih r h with ⟨r2, hmem, hkey⟩
        exact ⟨r2, List.mem_cons_of_mem r0 hmem, hkey⟩

theorem dedupKeepLast_pairwise (key : String) (rows : List Row) :
    (dedupKeepLast key rows).Pairwise (fun a b => getCell a key ≠ getCell b key) := by
  induction rows with
  | nil => simp [dedupKeepLast]
  | cons r0 rest ih =>
    by_cases h0 : rest.any (fun r2 => getCell r2 key == getCell r0 key)
    · rw [show dedupKeepLast key (r0 :: rest) = dedupKeepLast key rest from by
        simp [dedupKeepLast, h0]]
      exact ih
    · rw [show dedupKeepLast key (r0 :: rest) = r0 :: dedupKeepLast key rest from by
        simp [dedupKeepLast, h0]]
      refine List.pairwise_cons.mpr ⟨?_, ih⟩
      intro r2 h2 he
      have h2r : r2 ∈ rest := mem_of_mem_dedupKeepLast key rest r2 h2
      have : rest.any (fun r3 => getCell r3 key == getCell r0 key) = true :=
        List.any_eq_true.mpr ⟨r2, h2r, beq_iff_eq.mpr he.symm⟩
      exact h0 this

theorem lastWithKey_eq_none_iff (key : String) (k : Val) (rows : List Row) :
    lastWithKey key k rows = none ↔ ∀ r ∈ rows, getCell r key ≠ k := by
  induction rows with
  | nil => simp [lastWithKey]
  | cons r0 rest ih =>
    constructor
    · intro h r hr
      rcases List.mem_cons.mp hr with hr | hr
      · simp only [lastWithKey] at h
        rcases h2 : lastWithKey key k rest with _ | x
        · rw [h2] at h
          simp only [] at h
          intro he
          rw [hr] at he
          simp [he] at h
        · rw [h2] at h; exact absurd h (by simp)
      · intro he
        simp only [lastWithKey] at h
        rcases h2 : lastWithKey key k rest with _ | x
        · exact (ih.mp h2) r hr he
        · rw [h2] at h; exact absurd h (by simp)
    · intro h
      simp only [lastWithKey]
      rw [ih.mpr (fun r hr => h r (List.mem_cons_of_mem r0 hr))]
      simp [h r0 (List.mem_cons_self r0 rest)]

theorem dedupKeepLast_is_last (key : String) (rows : List Row) (r : Row)
    (h : r ∈ dedupKeepLast key rows) :
    lastWithKey key (getCell r key) rows = some r := by
  induction rows with
  | nil => simp [dedupKeepLast] at h
  | cons r0 rest ih =>
    by_cases h0 : rest.any (fun r2 => getCell r2 key == getCell r0 key)
    · rw [show dedupKeepLast key (r0 :: rest) = dedupKeepLast key rest from by
        simp [dedupKeepLast, h0]] at h
      simp only [lastWithKey, ih h]
    · rw [show dedupKeepLast key (r0 :: rest) = r0 :: dedupKeepLast key rest from by
        simp [dedupKeepLast, h0]] at h
      rcases List.mem_cons.mp h with h | h
      · subst h
        have hnone : lastWithKey key (getCell r key) rest = none := by
          rw [lastWithKey_eq_none_iff]
          intro r2 hr2 he
          exact h0 (List.any_eq_true.mpr ⟨r2, hr2, beq_iff_eq.mpr he⟩)
        simp [lastWithKey, hnone]
      · simp only [lastWithKey, ih h]

theorem dedupKeepLast_nonempty (key : String) (rows : List Row) (hne : rows ≠ []) :
    dedupKeepLast key rows ≠ [] := by
  cases rows with
  | nil => exact absurd rfl hne
  | cons r0 rest =>
    intro hcon
    rcases dedupKeepLast_covers key (r0 :: rest) r0 (List.mem_cons_self _ _) with
      ⟨r2, hmem, _⟩
    rw [hcon] at hmem
    cases hmem

/-! ## Lemmas about the per-item processing functions -/

theorem getCell_tmdbParseMovieDetails_const (r : Row) (d : TmdbDetails) :
    getCell (tmdbParseMovieDetails r d) "const" = getCell r "const" := by
  refine getCell_setCols_notMem (tmdbMovieCols d) r "const" ?_
  simp [tmdbMovieCols]

theorem getCell_tmdbParseTvDetails_const (r : Row) (d : TmdbDetails) :
    getCell (tmdbParseTvDetails r d) "const" = getCell r "const" := by
  refine getCell_setCols_notMem (tmdbTvCols d) r "const" ?_
  simp [tmdbTvCols]

theorem getCell_tmdbProcessItem_const (row : Row) (f : TmdbFetch) :
    getCell (tmdbProcessItem row f) "const" = getCell row "const" := by
  cases f with
  | notFound => rfl
  | found mt tmdbId details =>
    cases tmdbId with
    | none => rfl
    | some i =>
      by_cases hi : i = 0
      · simp [tmdbProcessItem, hi]
      · have hbase : getCell (setCol (setCol row "tmdb_id" (Val.vnum i))
            "tmdb_media_type" (Val.vstr (mediaTypeStr mt))) "const"
            = getCell row "const" := by
          rw [getCell_setCol_ne _ _ _ _ (by decide),
            getCell_setCol_ne _ _ _ _ (by decide)]
        cases mt with
        | movie =>
          cases details with
          | none => simpa [tmdbProcessItem, hi] using hbase
          | some d =>
            simp only [tmdbProcessItem, if_neg hi]
            rw [getCell_tmdbParseMovieDetails_const, hbase]
        | tv =>
          cases details with
          | none => simpa [tmdbProcessItem, hi] using hbase
          | some d =>
            simp only [tmdbProcessItem, if_neg hi]
            rw [getCell_tmdbParseTvDetails_const, hbase]

theorem mem_rowKeys_tmdbProcessItem (row : Row) (f : TmdbFetch) (k : String)
    (h : k ∈ rowKeys row) : k ∈ rowKeys (tmdbProcessItem row f) := by
  cases f with
  | notFound => exact h
  | found mt tmdbId details =>
    cases tmdbId with
    | none => exact h
    | some i =>
      by_cases hi : i = 0
      · simpa [tmdbProcessItem, hi] using h
      · have hbase : k ∈ rowKeys (setCol (setCol row "tmdb_id" (Val.vnum i))
            "tmdb_media_type" (Val.vstr (mediaTypeStr mt))) :=
          mem_rowKeys_setCol _ k _ _ (mem_rowKeys_setCol _ k _ _ h)
        cases mt with
        | movie =>
          cases details with
          | none => simpa [tmdbProcessItem, hi] using hbase
          | some d =>
            simp only [tmdbProcessItem, if_neg hi]
            exact mem_rowKeys_setCols (tmdbMovieCols d) _ k hbase
        | tv =>
          cases details with
          | none => simpa [tmdbProcessItem, hi] using hbase
          | some d =>
            simp only [tmdbProcessItem, if_neg hi]
            exact mem_rowKeys_setCols (tmdbTvCols d) _ k hbase

/-- What one successful TMDb loop iteration appends for a given row. -/
def tmdbProcOf (adapter : Val → TmdbItemOutcome) (row : Row) : Row :=
  match adapter (getCell row "const") with
  | TmdbItemOutcome.exn => row
  | TmdbItemOutcome.fetch f => tmdbProcessItem row f

theorem getCell_tmdbProcOf_const (adapter : Val → TmdbItemOutcome) (row : Row) :
    getCell (tmdbProcOf adapter row) "const" = getCell row "const" := by
  unfold tmdbProcOf
  cases adapter (getCell row "const") with
  | exn => rfl
  | fetch f => exact getCell_tmdbProcessItem_const row f

theorem mem_rowKeys_tmdbProcOf (adapter : Val → TmdbItemOutcome) (row : Row)
    (k : String) (h : k ∈ rowKeys row) : k ∈ rowKeys (tmdbProcOf adapter row) := by
  unfold tmdbProcOf
  cases adapter (getCell row "const") with
  | exn => exact h
  | fetch f => exact mem_rowKeys_tmdbProcessItem row f k h

/-! ## Lemmas about the run loops -/

theorem omdbLoop_cons (adapter : Val → OmdbOutcome) (lim : Nat) (row : Row)
    (rest : List Row) (c : Nat) :
    omdbLoop adapter lim (row :: rest) c =
      if lim ≤ c then ([], c, true)
      else
        match adapter (getCell row "const") with
        | OmdbOutcome.ok details =>
          let r := omdbLoop adapter lim rest (c + 1)
          (omdbProcessItem row details :: r.1, r.2)
        | OmdbOutcome.exn => omdbLoop adapter lim rest c := rfl

theorem omdbLoop_calls (adapter : Val → OmdbOutcome) (lim : Nat) :
    ∀ (items : List Row) (c : Nat),
      (omdbLoop adapter lim items c).2.1 = c + (omdbLoop adapter lim items c).1.length := by
  intro items
  induction items with
  | nil => intro c; rfl
  | cons row rest ih =>
    intro c
    by_cases hl : lim ≤ c
    · simp [omdbLoop_cons, if_pos hl]
    · cases ha : adapter (getCell row "const") with
      | ok details =>
        simp only [omdbLoop_cons, if_neg hl, ha]
        rw [ih (c + 1)]
        simp only [List.length_cons]
        omega
      | exn =>
        simp only [omdbLoop_cons, if_neg hl, ha]
        exact ih c

theorem omdbLoop_len_all_ok (adapter : Val → OmdbOutcome) (lim : Nat)
    (items : List Row)
    (hok : ∀ r ∈ items, adapter (getCell r "const") ≠ OmdbOutcome.exn) :
    ∀ c : Nat, (omdbLoop adapter lim items c).1.length = min items.length (lim - c) := by
  induction items with
  | nil => intro c; simp [omdbLoop]
  | cons row rest ih =>
    intro c
    by_cases hl : lim ≤ c
    · simp only [omdbLoop_cons, if_pos hl, List.length_nil, List.length_cons]
      omega
    · cases ha : adapter (getCell row "const") with
      | ok details =>
        simp only [omdbLoop_cons, if_neg hl, ha, List.length_cons]
        rw [ih (fun r hr => hok r (List.mem_cons_of_mem row hr)) (c + 1)]
        omega
      | exn =>
        exact absurd ha (hok row (List.mem_cons_self row rest))

theorem tmdbLoop_cons (adapter : Val → TmdbItemOutcome) (dest : DF) (row : Row)
    (rest : List Row) (acc : List Row) (ws : List TmdbSave) :
    tmdbLoop adapter dest (row :: rest) acc ws =
      match adapter (getCell row "const") with
      | TmdbItemOutcome.exn => tmdbLoop adapter dest rest acc ws
      | TmdbItemOutcome.fetch f =>
        let acc2 := acc ++ [tmdbProcessItem row f]
        if acc2.length % 10 = 0 then
          match tmdbSaveCheckpoint dest acc2 with
          | SaveResult.wrote d => tmdbLoop adapter dest rest acc2 (ws ++ [⟨acc2, d⟩])
          | _ => tmdbLoop adapter dest rest acc2 ws
        else tmdbLoop adapter dest rest acc2 ws := rfl

theorem tmdbLoop_all_ok (adapter : Val → TmdbItemOutcome) (dest : DF)
    (items : List Row)
    (hok : ∀ r ∈ items, adapter (getCell r "const") ≠ TmdbItemOutcome.exn) :
    ∀ (acc : List Row) (ws : List TmdbSave),
      (tmdbLoop adapter dest items acc ws).1 = acc ++ items.map (tmdbProcOf adapter) := by
  induction items with
  | nil => intro acc ws; simp [tmdbLoop]
  | cons row rest ih =>
    intro acc ws
    have hrest : ∀ r ∈ rest, adapter (getCell r "const") ≠ TmdbItemOutcome.exn :=
      fun r hr => hok r (List.mem_cons_of_mem row hr)
    cases ha : adapter (getCell row "const") with
    | exn => exact absurd ha (hok row (List.mem_cons_self row rest))
    | fetch f =>
      have hproc : tmdbProcOf adapter row = tmdbProcessItem row f := by
        unfold tmdbProcOf; rw [ha]
      simp only [tmdbLoop_cons, ha]
      by_cases hmod : (acc ++ [tmdbProcessItem row f]).length % 10 = 0
      · simp only [if_pos hmod]
        cases hsv : tmdbSaveCheckpoint dest (acc ++ [tmdbProcessItem row f]) with
        | wrote d => rw [ih hrest]; simp [hproc]
        | noWrite => rw [ih hrest]; simp [hproc]
        | raised => rw [ih hrest]; simp [hproc]
      · simp only [if_neg hmod]
        rw [ih hrest]; simp [hproc]

/-- The number of processed rows covered by the most recent checkpoint write
(0 when nothing has been written yet). -/
def lastSavedCount (ws : List TmdbSave) : Nat :=
  ((ws.getLast?).map (fun s => s.buffer.length)).getD 0

theorem lastSavedCount_concat (ws : List TmdbSave) (s : TmdbSave) :
    lastSavedCount (ws ++ [s]) = s.buffer.length := by
  simp [lastSavedCount, List.getLast?_concat]

theorem tmdbSaveCheckpoint_wrote_of (dest : DF) (newData : List Row) (c : String)
    (hc : dest.cols.head? = some c) (hne : newData ≠ [])
    (hmem : c ∈ (dfOfRows newData).cols) :
    tmdbSaveCheckpoint dest newData =
      SaveResult.wrote
        ⟨(concatDF dest (dfOfRows newData)).cols,
         dedupKeepLast "const" (concatDF dest (dfOfRows newData)).rows⟩ := by
  have hne2 : newData.isEmpty = false := by
    cases newData with
    | nil => exact absurd rfl hne
    | cons a l => rfl
  simp [tmdbSaveCheckpoint, hne2, hc, hmem]

theorem tmdbLoop_checkpoint_invariant (adapter : Val → TmdbItemOutcome) (dest : DF)
    (c : String) (hc : dest.cols.head? = some c) :
    ∀ (items acc : List Row) (ws : List TmdbSave),
      (∀ r ∈ items, adapter (getCell r "const") ≠ TmdbItemOutcome.exn) →
      (∀ r ∈ items, c ∈ rowKeys r) →
      lastSavedCount ws = acc.length - acc.length % 10 →
      lastSavedCount (tmdbLoop adapter dest items acc ws).2
        = (tmdbLoop adapter dest items acc ws).1.length
          - (tmdbLoop adapter dest items acc ws).1.length % 10 := by
  intro items
  induction items with
  | nil => intro acc ws _ _ hinv; exact hinv
  | cons row rest ih =>
    intro acc ws hok hkeys hinv
    have hrest : ∀ r ∈ rest, adapter (getCell r "const") ≠ TmdbItemOutcome.exn :=
      fun r hr => hok r (List.mem_cons_of_mem row hr)
    have hkrest : ∀ r ∈ rest, c ∈ rowKeys r :=
      fun r hr => hkeys r (List.mem_cons_of_mem row hr)
    cases ha : adapter (getCell row "const") with
    | exn => exact absurd ha (hok row (List.mem_cons_self row rest))
    | fetch f =>
      simp only [tmdbLoop_cons, ha]
      by_cases hmod : (acc ++ [tmdbProcessItem row f]).length % 10 = 0
      · simp only [if_pos hmod]
        have hkey : c ∈ rowKeys (tmdbProcessItem row f) :=
          mem_rowKeys_tmdbProcessItem row f c (hkeys row (List.mem_cons_self row rest))
        have hmem : c ∈ (dfOfRows (acc ++ [tmdbProcessItem row f])).cols :=
          mem_dfOfRows_cols _ (tmdbProcessItem row f) c
            (List.mem_append_right acc (List.mem_cons_self _ _)) hkey
        rw [tmdbSaveCheckpoint_wrote_of dest _ c hc (by simp) hmem]
        refine ih _ _ hrest hkrest ?_
        rw [lastSavedCount_concat, hmod]
        simp
      · simp only [if_neg hmod]
        refine ih _ _ hrest hkrest ?_
        rw [hinv]
        have hlen : (acc ++ [tmdbProcessItem row f]).length = acc.length + 1 := by simp
        rw [hlen]
        rw [hlen] at hmod
        omega

/-! ## Lemmas about `DataFrame.update` -/

theorem applyUpd_id_of_no_cols (cols : List String) (u : Row)
    (h : ∀ kv ∈ u, kv.1 ∉ cols) : ∀ r : Row, applyUpd cols r u = r := by
  induction u with
  | nil => intro r; rfl
  | cons kv rest ih =>
    intro r
    have hkv : kv.1 ∉ cols := h kv (List.mem_cons_self kv rest)
    have hcond : ¬ (kv.1 ∈ cols ∧ kv.2 ≠ Val.vnull) := fun hco => hkv hco.1
    show List.foldl _ (if kv.1 ∈ cols ∧ kv.2 ≠ Val.vnull then setCol r kv.1 kv.2 else r) rest = r
    rw [if_neg hcond]
    exact ih (fun kv2 h2 => h kv2 (List.mem_cons_of_mem kv h2)) r

theorem findUpd_mem (updates : List (Nat × Row)) (i : Nat) (u : Row)
    (h : findUpd updates i = some u) : (i, u) ∈ updates := by
  induction updates with
  | nil => simp [findUpd] at h
  | cons p rest ih =>
    by_cases hp : p.1 = i
    · rw [show findUpd (p :: rest) i = some p.2 from by simp [findUpd, hp]] at h
      have : p = (i, u) := by
        cases p
        simp only [Option.some.injEq] at h
        simp_all
      exact this ▸ List.mem_cons_self p rest
    · rw [show findUpd (p :: rest) i = findUpd rest i from by simp [findUpd, hp]] at h
      exact List.mem_cons_of_mem p (ih h)

theorem dfUpdate_id_of_no_cols (dest : DF) (updates : List (Nat × Row))
    (h : ∀ p ∈ updates, ∀ kv ∈ p.2, kv.1 ∉ dest.cols) :
    dfUpdate dest updates = dest := by
  unfold dfUpdate
  have hrows : dest.rows.enum.map
      (fun p =>
        match findUpd updates p.1 with
        | none => p.2
        | some u => applyUpd dest.cols p.2 u) = dest.rows.enum.map Prod.snd := by
    refine List.map_congr_left ?_
    intro p _
    cases hf : findUpd updates p.1 with
    | none => rfl
    | some u =>
      have hm : (p.1, u) ∈ updates := findUpd_mem updates p.1 u hf
      exact applyUpd_id_of_no_cols dest.cols u (h (p.1, u) hm) p.2
  rw [hrows, List.enum_map_snd]




/-! ## Claim C10 -/

/-- Claim C10: for every stage, calling run with `limit = 0` does not
truncate the work-list: since the Python code tests the limit for truthiness
(`if limit:`) rather than for being `None`, a zero limit behaves exactly
like no limit at all, and each stage run is unchanged by it. -/
theorem limit_zero_means_no_limit :
    (∀ (α : Type) (xs : List α), applyLimit (some 0) xs = xs)
    ∧ (∀ (source : DF) (prevOut : Option DF) (force : Bool)
        (adapter : Val → TmdbItemOutcome),
        tmdbRun source prevOut force (some 0) adapter
          = tmdbRun source prevOut force none adapter)
    ∧ (∀ (source : DF) (prevOut : Option DF) (force : Bool)
        (adapter : Val → OmdbOutcome) (st : QuotaStatus),
        omdbRun source prevOut force (some 0) adapter st
          = omdbRun source prevOut force none adapter st)
    ∧ (∀ (source : DF) (prevOut : Option DF) (force : Bool)
        (adapter : Val → DddOutcome),
        dddRun source prevOut force (some 0) adapter
          = dddRun source prevOut force none adapter) := by
  have h : ∀ (α : Type) (xs : List α),
      applyLimit (some 0) xs = applyLimit none xs := by
    intro α xs
    simp [applyLimit]
  refine ⟨fun α xs => h α xs, ?_, ?_, ?_⟩
  · intro source prevOut force adapter
    unfold tmdbRun
    rw [h]
  · intro source prevOut force adapter st
    unfold omdbRun
    rw [h]
  · intro source prevOut force adapter
    unfold dddRun
    rw [h]

/-! ## Claim C9 -/

/-- Claim C9 is false on the code: `TMDbClient._make_request` does not give
up after a single retry.  Against the response sequence 429, 429, success,
it issues three requests and returns the payload, while the claimed
single-retry policy would have given the request up after the second 429. -/
theorem tmdb_retry_not_single :
    makeRequest [TmdbResp.http429, TmdbResp.http429, TmdbResp.success 7] = some 7
    ∧ makeRequestSingleRetry
        [TmdbResp.http429, TmdbResp.http429, TmdbResp.success 7] = none
    ∧ requestCount [TmdbResp.http429, TmdbResp.http429, TmdbResp.success 7] = 3 := by
  exact ⟨rfl, rfl, rfl⟩

/-- Claim C9 amended: on HTTP 429 the adapter sleeps a fixed 10 seconds and
retries with no retry cap: every 429 response is followed by another
request, a run of `n` consecutive 429s costs `n + 1` requests before the
eventual non-429 answer, and the request is given up only on a non-429
error.  (Termination is therefore conditional on a non-429 response
eventually arriving; under sustained throttling the code retries forever,
as the design notes themselves flag.) -/
theorem tmdb_retries_every_429 :
    (∀ rest : List TmdbResp,
      makeRequest (TmdbResp.http429 :: rest) = makeRequest rest)
    ∧ (∀ (n p : Nat),
        makeRequest (List.replicate n TmdbResp.http429 ++ [TmdbResp.success p])
          = some p)
    ∧ (∀ (n p : Nat),
        requestCount (List.replicate n TmdbResp.http429 ++ [TmdbResp.success p])
          = n + 1) := by
  refine ⟨fun rest => rfl, ?_, ?_⟩
  · intro n p
    induction n with
    | zero => rfl
    | succ m ih => simpa [List.replicate_succ, makeRequest] using ih
  · intro n p
    induction n with
    | zero => rfl
    | succ m ih =>
      have hstep : requestCount
          (List.replicate (m + 1) TmdbResp.http429 ++ [TmdbResp.success p])
          = 1 + requestCount
              (List.replicate m TmdbResp.http429 ++ [TmdbResp.success p]) := rfl
      rw [hstep, ih]
      omega

/-! ## Claim C7 -/

/-- Claim C7: quota state loading stamps today's date; `calls_today` is kept
when the stored date is today and reset to 0 when it differs (before any
call is made, since `_load_status` runs in the constructor); a missing file
starts fresh; and the counter never decreases across the run loop. -/
theorem omdb_status_date_rollover_reset :
    (∀ (st : QuotaStatus) (today : String),
      (loadStatus (some st) today).last_run_date = today
      ∧ (loadStatus (some st) today).calls_today
          = (if st.last_run_date = today then st.calls_today else 0)
      ∧ (loadStatus (some st) today).enriched_ids = st.enriched_ids)
    ∧ (∀ today : String, loadStatus none today = ⟨0, today, []⟩)
    ∧ (∀ (adapter : Val → OmdbOutcome) (items : List Row) (c : Nat),
        c ≤ (omdbLoop adapter DAILY_LIMIT items c).2.1) := by
  refine ⟨?_, fun today => rfl, ?_⟩
  · intro st today
    by_cases h : st.last_run_date = today
    · simp [loadStatus, h]
    · simp [loadStatus, h]
  · intro adapter items c
    rw [omdbLoop_calls]
    omega

/-! ## Claim C4 -/

/-- Claim C4: with a non-empty pending work-list whose items all process
without raising, starting the OMDb loop at `calls_today = DAILY_LIMIT - 1`
processes exactly one more item, and with at least two pending items the
loop then halts through its limit check and reports exhaustion; starting at
`calls_today = DAILY_LIMIT` processes zero items; and the counter advances
by exactly one per successfully processed item (in any run, exceptions
included). -/
theorem omdb_quota_boundary (adapter : Val → OmdbOutcome) (items : List Row)
    (h1 : items ≠ [])
    (hok : ∀ r ∈ items, adapter (getCell r "const") ≠ OmdbOutcome.exn) :
    (omdbLoop adapter DAILY_LIMIT items (DAILY_LIMIT - 1)).1.length = 1
    ∧ (omdbLoop adapter DAILY_LIMIT items DAILY_LIMIT).1.length = 0
    ∧ (2 ≤ items.length →
        (omdbLoop adapter DAILY_LIMIT items (DAILY_LIMIT - 1)).2.2 = true)
    ∧ (∀ c : Nat,
        (omdbLoop adapter DAILY_LIMIT items c).2.1
          = c + (omdbLoop adapter DAILY_LIMIT items c).1.length) := by
  have hlen : 0 < items.length := List.length_pos.mpr h1
  have hD : DAILY_LIMIT = 980 := rfl
  refine ⟨?_, ?_, ?_, fun c => omdbLoop_calls adapter DAILY_LIMIT items c⟩
  · rw [omdbLoop_len_all_ok adapter DAILY_LIMIT items hok]
    rw [hD]
    omega
  · rw [omdbLoop_len_all_ok adapter DAILY_LIMIT items hok]
    omega
  · intro h2
    cases items with
    | nil => cases h1 rfl
    | cons a t =>
      cases t with
      | nil => simp at h2
      | cons b rest =>
        have hstep : ¬ DAILY_LIMIT ≤ DAILY_LIMIT - 1 := by rw [hD]; omega
        cases ha : adapter (getCell a "const") with
        | exn => exact absurd ha (hok a (List.mem_cons_self a _))
        | ok details =>
          simp only [omdbLoop_cons, if_neg hstep, ha]
          have hsucc : DAILY_LIMIT - 1 + 1 = DAILY_LIMIT := by rw [hD]
          rw [hsucc]
          simp [omdbLoop_cons]

/-- Claim C4 witness: the quota boundary evaluated at a concrete two-item
work-list with an always-successful adapter. -/
theorem omdb_quota_boundary_witness :
    (omdbLoop (fun _ => OmdbOutcome.ok none) DAILY_LIMIT
        [[("const", Val.vstr "tt1")], [("const", Val.vstr "tt2")]]
        (DAILY_LIMIT - 1)).1.length = 1
    ∧ (omdbLoop (fun _ => OmdbOutcome.ok none) DAILY_LIMIT
        [[("const", Val.vstr "tt1")], [("const", Val.vstr "tt2")]]
        DAILY_LIMIT).1.length = 0
    ∧ (2 ≤ ([[("const", Val.vstr "tt1")],
          [("const", Val.vstr "tt2")]] : List Row).length →
        (omdbLoop (fun _ => OmdbOutcome.ok none) DAILY_LIMIT
          [[("const", Val.vstr "tt1")], [("const", Val.vstr "tt2")]]
          (DAILY_LIMIT - 1)).2.2 = true)
    ∧ (∀ c : Nat,
        (omdbLoop (fun _ => OmdbOutcome.ok none) DAILY_LIMIT
            [[("const", Val.vstr "tt1")], [("const", Val.vstr "tt2")]] c).2.1
          = c + (omdbLoop (fun _ => OmdbOutcome.ok none) DAILY_LIMIT
              [[("const", Val.vstr "tt1")], [("const", Val.vstr "tt2")]] c).1.length) :=
  omdb_quota_boundary (fun _ => OmdbOutcome.ok none)
    [[("const", Val.vstr "tt1")], [("const", Val.vstr "tt2")]]
    (by decide) (by intro r hr; simp)

/-! ## Claim C8 -/

/-- Claim C8 is false on the code for one of its enumerated absence cases:
in the TMDb stage, when the find step succeeds but the subsequent details
request fails (the adapter returns an absence signal for it),
`_process_item` has already set `tmdb_id` and `tmdb_media_type`, so the
returned row is NOT the base row, and provider-prefixed columns were added. -/
theorem tmdb_details_failure_adds_columns :
    tmdbProcessItem [("const", Val.vstr "tt9"), ("title", Val.vstr "Z")]
        (TmdbFetch.found MediaType.movie (some 7) none)
      ≠ [("const", Val.vstr "tt9"), ("title", Val.vstr "Z")]
    ∧ getCell
        (tmdbProcessItem [("const", Val.vstr "tt9"), ("title", Val.vstr "Z")]
          (TmdbFetch.found MediaType.movie (some 7) none)) "tmdb_id"
      = Val.vnum 7 := by
  refine ⟨?_, ?_⟩
  · decide
  · decide

/-- Claim C8 amended: the per-item step returns the base row exactly
unchanged when the lookup as a whole yields nothing — for TMDb, when the
find call returns absence (not found or failed request), when the basic
info lacks an id, or when the id is falsy; for OMDb, on any absence — and
such rows are appended to the output rather than dropped.  The one
exception is a TMDb details-call failure after a successful find: there the
row gains exactly `tmdb_id` and `tmdb_media_type` and nothing else. -/
theorem absence_preserves_base_row :
    (∀ row : Row, tmdbProcessItem row TmdbFetch.notFound = row)
    ∧ (∀ (row : Row) (mt : MediaType) (d : Option TmdbDetails),
        tmdbProcessItem row (TmdbFetch.found mt none d) = row)
    ∧ (∀ (row : Row) (mt : MediaType) (d : Option TmdbDetails),
        tmdbProcessItem row (TmdbFetch.found mt (some 0) d) = row)
    ∧ (∀ row : Row, omdbProcessItem row none = row)
    ∧ (∀ (row : Row) (mt : MediaType) (i : Nat), i ≠ 0 →
        tmdbProcessItem row (TmdbFetch.found mt (some i) none)
          = setCol (setCol row "tmdb_id" (Val.vnum i)) "tmdb_media_type"
              (Val.vstr (mediaTypeStr mt))) := by
  refine ⟨fun row => rfl, ?_, ?_, fun row => rfl, ?_⟩
  · intro row mt d
    cases mt <;> rfl
  · intro row mt d
    cases mt <;> simp [tmdbProcessItem]
  · intro row mt i hi
    cases mt <;> simp [tmdbProcessItem, hi]

/-- Claim C8 witness: the amended statement evaluated at a concrete base
row, for the branch that carries the hypothesis (a details-call failure
after a successful find with a non-falsy id). -/
theorem absence_preserves_base_row_witness :
    tmdbProcessItem [("const", Val.vstr "tt3")]
        (TmdbFetch.found MediaType.tv (some 4) none)
      = setCol (setCol [("const", Val.vstr "tt3")] "tmdb_id" (Val.vnum 4))
          "tmdb_media_type" (Val.vstr (mediaTypeStr MediaType.tv)) :=
  absence_preserves_base_row.2.2.2.2 [("const", Val.vstr "tt3")] MediaType.tv 4
    (by decide)

/-! ## Claim C5 -/

/-- Claim C5 is wrong about the code, and the code contradicts its own
interrupt message: on a `KeyboardInterrupt` raised mid-loop (here: before
the third item of a three-item work-list, after two successful calls), the
per-item handler (`except Exception`) does not catch it, `run` unwinds
before `to_csv` and `_save_status`, and `main` prints "Progress saved" and
exits 0 — yet no quota-state write and no file write happened: the two
calls made are missing from the persisted counter.  A completed run, by
contrast, writes the status exactly once at the end, not after every call. -/
theorem omdb_interrupt_loses_quota_state :
    (omdbRunInterrupted
        ⟨["const"], [[("const", Val.vstr "tt1")], [("const", Val.vstr "tt2")],
          [("const", Val.vstr "tt3")]]⟩
        none false none (fun _ => OmdbOutcome.ok none) ⟨10, "2024-01-01", []⟩
        2).statusWrites = []
    ∧ (omdbRunInterrupted
        ⟨["const"], [[("const", Val.vstr "tt1")], [("const", Val.vstr "tt2")],
          [("const", Val.vstr "tt3")]]⟩
        none false none (fun _ => OmdbOutcome.ok none) ⟨10, "2024-01-01", []⟩
        2).fileWrites = []
    ∧ (omdbRunInterrupted
        ⟨["const"], [[("const", Val.vstr "tt1")], [("const", Val.vstr "tt2")],
          [("const", Val.vstr "tt3")]]⟩
        none false none (fun _ => OmdbOutcome.ok none) ⟨10, "2024-01-01", []⟩
        2).memCalls = 12
    ∧ (omdbRunInterrupted
        ⟨["const"], [[("const", Val.vstr "tt1")], [("const", Val.vstr "tt2")],
          [("const", Val.vstr "tt3")]]⟩
        none false none (fun _ => OmdbOutcome.ok none) ⟨10, "2024-01-01", []⟩
        2).persistedStatus.calls_today = 10
    ∧ (omdbRun
        ⟨["const"], [[("const", Val.vstr "tt1")], [("const", Val.vstr "tt2")],
          [("const", Val.vstr "tt3")]]⟩
        none false none (fun _ => OmdbOutcome.ok none) ⟨10, "2024-01-01", []⟩
        ).statusWrites.length = 1 := by
  refine ⟨?_, ?_, ?_, ?_, ?_⟩ <;> decide

/-! ## Claim C1 -/

def c1src : DF :=
  ⟨["const", "title"], [[("const", Val.vstr "tt1"), ("title", Val.vstr "A")]]⟩

def c1adapter : Val → OmdbOutcome :=
  fun _ => OmdbOutcome.ok (some ⟨[("Title", Val.vstr "A1")], []⟩)

/-- Claim C1 is false on the code: the OMDb stage's save step
(`pd.concat` with no `drop_duplicates`) leaves two rows with the same
`const` in `02_omdb_enriched_media.csv`.  On a fresh run over a one-title
source, the destination starts as a copy of the source, the enriched row is
appended to it, and the written file holds two rows whose `const` is
`tt1`. -/
theorem omdb_save_duplicates_const :
    ((omdbRun c1src none false none c1adapter ⟨0, "2024-01-01", []⟩).fileWrites.headD
        emptyDF).rows.length = 2
    ∧ (((omdbRun c1src none false none c1adapter
          ⟨0, "2024-01-01", []⟩).fileWrites.headD emptyDF).rows.filter
        (fun r => decide (getCell r "const" = Val.vstr "tt1"))).length = 2 := by
  refine ⟨?_, ?_⟩ <;> decide

/-- Claim C1 amended: only the TMDb stage's checkpoint save de-duplicates.
Whenever `_save_checkpoint` writes, the written table has pairwise-distinct
`const` values, covers every row of the concatenated candidate table
(existing destination plus buffered rows), and each kept row is the LAST
row bearing its `const` in that candidate — the most recently fetched
version.  The OMDb stage's save performs no de-duplication, so its output
can hold several rows per `const` (see the counterexample). -/
theorem tmdb_checkpoint_dedup_keeps_last (dest : DF) (newData : List Row) (d : DF)
    (h : tmdbSaveCheckpoint dest newData = SaveResult.wrote d) :
    d.rows.Pairwise (fun a b => getCell a "const" ≠ getCell b "const")
    ∧ (∀ r ∈ (concatDF dest (dfOfRows newData)).rows,
        ∃ r2 ∈ d.rows, getCell r2 "const" = getCell r "const")
    ∧ (∀ r2 ∈ d.rows,
        lastWithKey "const" (getCell r2 "const")
          (concatDF dest (dfOfRows newData)).rows = some r2) := by
  have hd : d.rows
      = dedupKeepLast "const" (concatDF dest (dfOfRows newData)).rows := by
    unfold tmdbSaveCheckpoint at h
    by_cases he : newData.isEmpty
    · rw [if_pos he] at h
      exact absurd h (by simp)
    · rw [if_neg he] at h
      split at h
      · exact absurd h (by simp)
      · split at h
        · simp only [SaveResult.wrote.injEq] at h
          rw [← h]
        · exact absurd h (by simp)
  refine ⟨?_, ?_, ?_⟩
  · rw [hd]
    exact dedupKeepLast_pairwise "const" _
  · intro r hr
    rcases dedupKeepLast_covers "const" _ r hr with ⟨r2, hmem, hkey⟩
    exact ⟨r2, hd ▸ hmem, hkey⟩
  · intro r2 h2
    exact dedupKeepLast_is_last "const" _ r2 (hd ▸ h2)

def w1dest : DF :=
  ⟨["const", "title"], [[("const", Val.vstr "tt1"), ("title", Val.vstr "Old")]]⟩

def w1new : List Row :=
  [[("const", Val.vstr "tt1"), ("title", Val.vstr "New")],
   [("const", Val.vstr "tt2"), ("title", Val.vstr "B")]]

def w1d : DF :=
  match tmdbSaveCheckpoint w1dest w1new with
  | SaveResult.wrote d => d
  | _ => emptyDF

/-- Claim C1 witness: the amended statement at a concrete checkpoint where
the buffer re-fetches `tt1`; the written table keeps the new `tt1` row. -/
theorem tmdb_checkpoint_dedup_keeps_last_witness :
    tmdbSaveCheckpoint w1dest w1new = SaveResult.wrote w1d
    ∧ (w1d.rows.Pairwise (fun a b => getCell a "const" ≠ getCell b "const")
      ∧ (∀ r ∈ (concatDF w1dest (dfOfRows w1new)).rows,
          ∃ r2 ∈ w1d.rows, getCell r2 "const" = getCell r "const")
      ∧ (∀ r2 ∈ w1d.rows,
          lastWithKey "const" (getCell r2 "const")
            (concatDF w1dest (dfOfRows w1new)).rows = some r2)) :=
  ⟨by decide, tmdb_checkpoint_dedup_keeps_last w1dest w1new w1d (by decide)⟩

/-! ## Claim C6 -/

/-- Claim C6 is false on the code: the OMDb pending computation compares raw
`const` values with no `astype(str)` normalization, so an id stored
numerically in the destination (here 123, with a non-null `omdb_title`) does
not match the same id stored as the string "123" in the source, and the row
is recomputed as pending rather than recognized as processed. -/
theorem omdb_pending_misses_numeric_id :
    (omdbGetItemsToProcess ⟨["const"], [[("const", Val.vstr "123")]]⟩
        ⟨["const", "omdb_title"],
          [[("const", Val.vnum 123), ("omdb_title", Val.vstr "X")]]⟩).length = 1 := by
  decide

/-- Claim C6 amended: only the TMDb stage normalizes ids to strings before
comparison: any source row whose `astype(str)` const matches some
destination row's `astype(str)` const is excluded from the TMDb pending
set, whatever the cell types.  The OMDb stage compares raw values (see the
counterexample) and the DDD stage's pending check involves no id comparison
at all. -/
theorem tmdb_pending_normalizes_ids (source dest : DF) (r : Row)
    (hr : r ∈ source.rows)
    (hd : ∃ rd ∈ dest.rows,
      valToStr (getCell rd "const") = valToStr (getCell r "const")) :
    r ∉ tmdbGetItemsToProcess source dest := by
  rcases hd with ⟨rd, hrd, heq⟩
  have hne : dest.rows.isEmpty = false := by
    cases hrows : dest.rows with
    | nil => rw [hrows] at hrd; cases hrd
    | cons a l => rfl
  intro hmem
  unfold tmdbGetItemsToProcess at hmem
  simp only [hne, Bool.false_eq_true, if_false] at hmem
  have hpred := (List.mem_filter.mp hmem).2
  rw [decide_eq_true_iff] at hpred
  exact hpred (List.mem_map.mpr ⟨rd, hrd, heq⟩)

/-- Claim C6 witness: the amended statement at the concrete numeric/string
pair: the TMDb pending computation does recognize string "123" against a
destination row whose const is the number 123. -/
theorem tmdb_pending_normalizes_ids_witness :
    [("const", Val.vstr "123")] ∉
      tmdbGetItemsToProcess ⟨["const"], [[("const", Val.vstr "123")]]⟩
        ⟨["const", "tmdb_id"],
          [[("const", Val.vnum 123), ("tmdb_id", Val.vnum 5)]]⟩ :=
  tmdb_pending_normalizes_ids _ _ _ (by decide)
    ⟨[("const", Val.vnum 123), ("tmdb_id", Val.vnum 5)], by decide, by decide⟩

/-! ## Claim C3 -/

theorem tmdbSaveCheckpoint_noWrite_imp (dest : DF) (newData : List Row)
    (h : tmdbSaveCheckpoint dest newData = SaveResult.noWrite) : newData = [] := by
  unfold tmdbSaveCheckpoint at h
  by_cases he : newData.isEmpty
  · cases newData with
    | nil => rfl
    | cons a l => simp [List.isEmpty] at he
  · rw [if_neg he] at h
    split at h
    · exact absurd h (by simp)
    · split at h
      · exact absurd h (by simp)
      · exact absurd h (by simp)

theorem tmdbLoop_loss_le (adapter : Val → TmdbItemOutcome) (dest : DF) (c : String)
    (items : List Row) (k : Nat)
    (hc : dest.cols.head? = some c)
    (hok : ∀ r ∈ items, adapter (getCell r "const") ≠ TmdbItemOutcome.exn)
    (hkeys : ∀ r ∈ items, c ∈ rowKeys r) :
    (tmdbLoop adapter dest (items.take k) [] []).1.length
      - lastSavedCount (tmdbLoop adapter dest (items.take k) [] []).2 ≤ 10 := by
  have hok2 : ∀ r ∈ items.take k,
      adapter (getCell r "const") ≠ TmdbItemOutcome.exn :=
    fun r hr => hok r (List.take_subset k items hr)
  have hkeys2 : ∀ r ∈ items.take k, c ∈ rowKeys r :=
    fun r hr => hkeys r (List.take_subset k items hr)
  have H := tmdbLoop_checkpoint_invariant adapter dest c hc (items.take k) [] []
    hok2 hkeys2 (by simp [lastSavedCount])
  omega

theorem tmdbRunCore_final_write_covers (adapter : Val → TmdbItemOutcome)
    (dest : DF) (pending : List Row)
    (h1 : (tmdbRunCore adapter dest pending).raisedAtEnd = false)
    (h2 : (tmdbRunCore adapter dest pending).processed ≠ []) :
    ((tmdbRunCore adapter dest pending).writes.getLast?).map TmdbSave.buffer
      = some (tmdbRunCore adapter dest pending).processed := by
  cases hp : pending.isEmpty with
  | true =>
    rw [show tmdbRunCore adapter dest pending = ⟨[], [], false⟩ from by
      simp [tmdbRunCore, hp]] at h2
    exact absurd rfl h2
  | false =>
    cases hsv : tmdbSaveCheckpoint dest (tmdbLoop adapter dest pending [] []).1 with
    | wrote d =>
      have hr : tmdbRunCore adapter dest pending
          = ⟨(tmdbLoop adapter dest pending [] []).1,
             (tmdbLoop adapter dest pending [] []).2
               ++ [⟨(tmdbLoop adapter dest pending [] []).1, d⟩], false⟩ := by
        simp [tmdbRunCore, hp, hsv]
      rw [hr]
      simp [List.getLast?_concat]
    | noWrite =>
      have hnil := tmdbSaveCheckpoint_noWrite_imp dest _ hsv
      rw [show tmdbRunCore adapter dest pending
          = ⟨(tmdbLoop adapter dest pending [] []).1,
             (tmdbLoop adapter dest pending [] []).2, false⟩ from by
        simp [tmdbRunCore, hp, hsv]] at h2
      exact absurd hnil h2
    | raised =>
      rw [show tmdbRunCore adapter dest pending
          = ⟨(tmdbLoop adapter dest pending [] []).1,
             (tmdbLoop adapter dest pending [] []).2, true⟩ from by
        simp [tmdbRunCore, hp, hsv]] at h1
      exact absurd h1 (by simp)

theorem omdbRunCore_fileWrites_le_one (adapter : Val → OmdbOutcome) (dest : DF)
    (pending : List Row) (st : QuotaStatus) :
    (omdbRunCore adapter dest pending st).fileWrites.length ≤ 1 := by
  simp only [omdbRunCore]
  split
  · simp
  · split
    · simp
    · simp

theorem omdbRunInterrupted_fileWrites (source : DF) (prevOut : Option DF)
    (force : Bool) (limit : Option Int) (adapter : Val → OmdbOutcome)
    (st : QuotaStatus) (k : Nat) :
    (omdbRunInterrupted source prevOut force limit adapter st k).fileWrites = [] := by
  unfold omdbRunInterrupted
  split
  · rfl
  · rfl

def c3src : DF :=
  ⟨["const"], (List.range 21).map (fun i => [("const", Val.vstr ("t" ++ toString i))])⟩

/-- Claim C3 is false on the code: the OMDb run loop contains no periodic
save at all — the only `to_csv` is after the loop.  In a 21-item run killed
right before its save block (modelled by the interrupt cut), 21 items were
processed in memory (`memCalls` went from 0 to 21) and the persisted
destination was never written: the loss is all 21 items, which exceeds every
checkpoint cadence in the repository (TMDb's 10, DDD's 20), so no fixed
bound N holds for the OMDb stage.  A completed run writes exactly once. -/
theorem omdb_run_has_no_periodic_checkpoint :
    (omdbRunInterrupted c3src none false none (fun _ => OmdbOutcome.ok none)
        ⟨0, "2024-01-01", []⟩ 21).fileWrites = []
    ∧ (omdbRunInterrupted c3src none false none (fun _ => OmdbOutcome.ok none)
        ⟨0, "2024-01-01", []⟩ 21).memCalls = 21
    ∧ (omdbRun c3src none false none (fun _ => OmdbOutcome.ok none)
        ⟨0, "2024-01-01", []⟩).fileWrites.length = 1 := by
  refine ⟨?_, ?_, ?_⟩ <;> decide

/-- Claim C3 amended: bounded loss holds only for the TMDb stage, and only
when its checkpoint save can succeed (the destination frame has a first
column that the processed rows carry — on a fresh run with an empty
destination frame every `_save_checkpoint` raises `IndexError` instead).
Then: after any number of processed items, at most 10 of them are not yet
covered by the latest write, and a completed run's final write covers every
processed row.  The DDD stage calls its save every 20 items, but
`DataFrame.update` ignores columns the destination lacks, so a save against
a destination without the `ddd_*` columns persists the frame unchanged.
The OMDb stage writes its file at most once, only after the loop; an
interrupted OMDb run writes nothing. -/
theorem checkpoint_bounded_loss_amended :
    (∀ (adapter : Val → TmdbItemOutcome) (dest : DF) (c : String)
        (items : List Row) (k : Nat),
      dest.cols.head? = some c →
      (∀ r ∈ items, adapter (getCell r "const") ≠ TmdbItemOutcome.exn) →
      (∀ r ∈ items, c ∈ rowKeys r) →
      (tmdbLoop adapter dest (items.take k) [] []).1.length
        - lastSavedCount (tmdbLoop adapter dest (items.take k) [] []).2 ≤ 10)
    ∧ (∀ (adapter : Val → TmdbItemOutcome) (dest : DF) (pending : List Row),
        (tmdbRunCore adapter dest pending).raisedAtEnd = false →
        (tmdbRunCore adapter dest pending).processed ≠ [] →
        ((tmdbRunCore adapter dest pending).writes.getLast?).map TmdbSave.buffer
          = some (tmdbRunCore adapter dest pending).processed)
    ∧ (∀ (dest : DF) (updates : List (Nat × Row)),
        (∀ p ∈ updates, ∀ kv ∈ p.2, kv.1 ∉ dest.cols) →
        dfUpdate dest updates = dest)
    ∧ (∀ (source : DF) (prevOut : Option DF) (force : Bool) (limit : Option Int)
        (adapter : Val → OmdbOutcome) (st : QuotaStatus),
        (omdbRun source prevOut force limit adapter st).fileWrites.length ≤ 1)
    ∧ (∀ (source : DF) (prevOut : Option DF) (force : Bool) (limit : Option Int)
        (adapter : Val → OmdbOutcome) (st : QuotaStatus) (k : Nat),
        (omdbRunInterrupted source prevOut force limit adapter st k).fileWrites
          = []) :=
  ⟨fun adapter dest c items k hc hok hkeys =>
      tmdbLoop_loss_le adapter dest c items k hc hok hkeys,
   fun adapter dest pending h1 h2 =>
      tmdbRunCore_final_write_covers adapter dest pending h1 h2,
   fun dest updates h => dfUpdate_id_of_no_cols dest updates h,
   fun source prevOut force limit adapter st =>
      omdbRunCore_fileWrites_le_one adapter _ _ st,
   fun source prevOut force limit adapter st k =>
      omdbRunInterrupted_fileWrites source prevOut force limit adapter st k⟩

def w3adapter : Val → TmdbItemOutcome :=
  fun _ => TmdbItemOutcome.fetch TmdbFetch.notFound

def w3dest : DF := ⟨["const"], []⟩

def w3dest2 : DF := ⟨["const"], [[("const", Val.vstr "z")]]⟩

def w3items : List Row :=
  (List.range 12).map (fun i => [("const", Val.vstr ("t" ++ toString i))])

/-- Claim C3 witness: the amended statement at concrete inputs — a 12-item
TMDb work-list cut at 11 processed items loses at most 10; a one-item run
core completes and its final write covers the processed row; a DDD-style
update carrying only a `ddd_id` column leaves a destination without that
column unchanged. -/
theorem checkpoint_bounded_loss_amended_witness :
    ((tmdbLoop w3adapter w3dest (w3items.take 11) [] []).1.length
      - lastSavedCount (tmdbLoop w3adapter w3dest (w3items.take 11) [] []).2 ≤ 10)
    ∧ ((tmdbRunCore w3adapter w3dest2 [[("const", Val.vstr "t1")]]).raisedAtEnd
        = false
      ∧ ((tmdbRunCore w3adapter w3dest2
            [[("const", Val.vstr "t1")]]).writes.getLast?).map TmdbSave.buffer
        = some (tmdbRunCore w3adapter w3dest2
            [[("const", Val.vstr "t1")]]).processed)
    ∧ dfUpdate w3dest2 [(0, [("ddd_id", Val.vstr "NOT_FOUND")])] = w3dest2 :=
  ⟨checkpoint_bounded_loss_amended.1 w3adapter w3dest "const" w3items 11 rfl
      (by decide) (by decide),
   ⟨by decide,
    checkpoint_bounded_loss_amended.2.1 w3adapter w3dest2
      [[("const", Val.vstr "t1")]] (by decide) (by decide)⟩,
   checkpoint_bounded_loss_amended.2.2.1 w3dest2
      [(0, [("ddd_id", Val.vstr "NOT_FOUND")])] (by decide)⟩

/-! ## Claim C2 -/

theorem eq_nil_of_isEmpty {α : Type} (l : List α) (h : l.isEmpty = true) :
    l = [] := by
  cases l with
  | nil => rfl
  | cons a t => simp [List.isEmpty] at h

theorem mem_tmdbPending_sub (source dest : DF) (r : Row)
    (h : r ∈ tmdbGetItemsToProcess source dest) : r ∈ source.rows := by
  unfold tmdbGetItemsToProcess at h
  by_cases he : dest.rows.isEmpty
  · rw [if_pos he] at h
    exact h
  · rw [if_neg he] at h
    exact List.mem_of_mem_filter h

theorem tmdbPending_covered (source dest : DF) (r : Row)
    (hr : r ∈ source.rows) (hne : dest.rows.isEmpty = false)
    (hnp : r ∉ tmdbGetItemsToProcess source dest) :
    ∃ rd ∈ dest.rows,
      valToStr (getCell rd "const") = valToStr (getCell r "const") := by
  unfold tmdbGetItemsToProcess at hnp
  simp only [hne, Bool.false_eq_true, if_false] at hnp
  by_contra hcon
  push_neg at hcon
  apply hnp
  refine List.mem_filter.mpr ⟨hr, ?_⟩
  rw [decide_eq_true_iff]
  intro hmem
  rcases List.mem_map.mp hmem with ⟨rd, hrd, heq⟩
  exact absurd heq (hcon rd hrd)

theorem tmdbSaveCheckpoint_wrote_rows (dest : DF) (newData : List Row) (d : DF)
    (h : tmdbSaveCheckpoint dest newData = SaveResult.wrote d) :
    d.rows = dedupKeepLast "const" (concatDF dest (dfOfRows newData)).rows := by
  unfold tmdbSaveCheckpoint at h
  by_cases he : newData.isEmpty
  · rw [if_pos he] at h
    exact absurd h (by simp)
  · rw [if_neg he] at h
    split at h
    · exact absurd h (by simp)
    · split at h
      · simp only [SaveResult.wrote.injEq] at h
        rw [← h]
      · exact absurd h (by simp)

theorem tmdb_second_run_core (source dest0 : DF)
    (adapter : Val → TmdbItemOutcome)
    (hok : ∀ r ∈ source.rows, adapter (getCell r "const") ≠ TmdbItemOutcome.exn)
    (hdone : (tmdbRunCore adapter dest0
      (tmdbGetItemsToProcess source dest0)).raisedAtEnd = false) :
    tmdbGetItemsToProcess source
      (tmdbFinalFile dest0
        (tmdbRunCore adapter dest0 (tmdbGetItemsToProcess source dest0))) = [] := by
  cases hp : (tmdbGetItemsToProcess source dest0).isEmpty with
  | true =>
    rw [show tmdbRunCore adapter dest0 (tmdbGetItemsToProcess source dest0)
        = ⟨[], [], false⟩ from by simp [tmdbRunCore, hp]]
    show tmdbGetItemsToProcess source dest0 = []
    exact eq_nil_of_isEmpty _ hp
  | false =>
    have hpne : tmdbGetItemsToProcess source dest0 ≠ [] := by
      intro hc
      rw [hc] at hp
      simp [List.isEmpty] at hp
    have hokp : ∀ r ∈ tmdbGetItemsToProcess source dest0,
        adapter (getCell r "const") ≠ TmdbItemOutcome.exn :=
      fun r hr => hok r (mem_tmdbPending_sub source dest0 r hr)
    have hloop : (tmdbLoop adapter dest0 (tmdbGetItemsToProcess source dest0) [] []).1
        = (tmdbGetItemsToProcess source dest0).map (tmdbProcOf adapter) := by
      simpa using tmdbLoop_all_ok adapter dest0 _ hokp [] []
    have hlne : (tmdbLoop adapter dest0 (tmdbGetItemsToProcess source dest0) [] []).1
        ≠ [] := by
      rw [hloop]
      intro hc
      exact hpne (List.map_eq_nil_iff.mp hc)
    cases hsv : tmdbSaveCheckpoint dest0
        (tmdbLoop adapter dest0 (tmdbGetItemsToProcess source dest0) [] []).1 with
    | noWrite => exact absurd (tmdbSaveCheckpoint_noWrite_imp _ _ hsv) hlne
    | raised =>
      rw [show tmdbRunCore adapter dest0 (tmdbGetItemsToProcess source dest0)
          = ⟨(tmdbLoop adapter dest0 (tmdbGetItemsToProcess source dest0) [] []).1,
             (tmdbLoop adapter dest0 (tmdbGetItemsToProcess source dest0) [] []).2,
             true⟩ from by simp [tmdbRunCore, hp, hsv]] at hdone
      exact absurd hdone (by simp)
    | wrote d =>
      rw [show tmdbRunCore adapter dest0 (tmdbGetItemsToProcess source dest0)
          = ⟨(tmdbLoop adapter dest0 (tmdbGetItemsToProcess source dest0) [] []).1,
             (tmdbLoop adapter dest0 (tmdbGetItemsToProcess source dest0) [] []).2
               ++ [⟨(tmdbLoop adapter dest0
                     (tmdbGetItemsToProcess source dest0) [] []).1, d⟩],
             false⟩ from by simp [tmdbRunCore, hp, hsv]]
      rw [show tmdbFinalFile dest0
          ⟨(tmdbLoop adapter dest0 (tmdbGetItemsToProcess source dest0) [] []).1,
           (tmdbLoop adapter dest0 (tmdbGetItemsToProcess source dest0) [] []).2
             ++ [⟨(tmdbLoop adapter dest0
                   (tmdbGetItemsToProcess source dest0) [] []).1, d⟩],
           false⟩ = d from by simp [tmdbFinalFile, List.getLast?_concat]]
      have hd := tmdbSaveCheckpoint_wrote_rows dest0 _ d hsv
      have hcand_ne : (concatDF dest0 (dfOfRows
          (tmdbLoop adapter dest0 (tmdbGetItemsToProcess source dest0) [] []).1)).rows
          ≠ [] := by
        show dest0.rows
          ++ (tmdbLoop adapter dest0 (tmdbGetItemsToProcess source dest0) [] []).1
          ≠ []
        intro hc
        exact hlne (List.append_eq_nil.mp hc).2
      have hdne : d.rows ≠ [] := by
        rw [hd]
        exact dedupKeepLast_nonempty "const" _ hcand_ne
      have hdE : d.rows.isEmpty = false := by
        cases hdr : d.rows with
        | nil => exact absurd hdr hdne
        | cons a t => rfl
      unfold tmdbGetItemsToProcess
      simp only [hdE, Bool.false_eq_true, if_false]
      apply filter_nil_of
      intro rsrc hrsrc
      rw [decide_eq_false_iff_not, not_not]
      by_cases hmem : rsrc ∈ tmdbGetItemsToProcess source dest0
      · have hin : tmdbProcOf adapter rsrc
            ∈ (tmdbLoop adapter dest0 (tmdbGetItemsToProcess source dest0) [] []).1 := by
          rw [hloop]
          exact List.mem_map_of_mem _ hmem
        have hcand : tmdbProcOf adapter rsrc
            ∈ (concatDF dest0 (dfOfRows
              (tmdbLoop adapter dest0
                (tmdbGetItemsToProcess source dest0) [] []).1)).rows := by
          show tmdbProcOf adapter rsrc ∈ dest0.rows ++ _
          exact List.mem_append_right _ hin
        rcases dedupKeepLast_covers "const" _ _ hcand with ⟨r2, h2mem, h2key⟩
        refine List.mem_map.mpr ⟨r2, hd ▸ h2mem, ?_⟩
        rw [h2key, getCell_tmdbProcOf_const]
      · cases hde : dest0.rows.isEmpty with
        | true =>
          exfalso
          apply hmem
          unfold tmdbGetItemsToProcess
          rw [if_pos hde]
          exact hrsrc
        | false =>
          rcases tmdbPending_covered source dest0 rsrc hrsrc hde hmem with
            ⟨rd, hrd, heq⟩
          have hcand : rd ∈ (concatDF dest0 (dfOfRows
              (tmdbLoop adapter dest0
                (tmdbGetItemsToProcess source dest0) [] []).1)).rows := by
            show rd ∈ dest0.rows ++ _
            exact List.mem_append_left _ hrd
          rcases dedupKeepLast_covers "const" _ _ hcand with ⟨r2, h2mem, h2key⟩
          refine List.mem_map.mpr ⟨r2, hd ▸ h2mem, ?_⟩
          rw [h2key, heq]

def c2src : DF :=
  ⟨["const", "title"],
   [[("const", Val.vstr "tt001"), ("title", Val.vstr "A")],
    [("const", Val.vstr "tt002"), ("title", Val.vstr "B")],
    [("const", Val.vstr "tt003"), ("title", Val.vstr "C")]]⟩

def c2adapter : Val → OmdbOutcome :=
  fun v =>
    if v = Val.vstr "tt002" then OmdbOutcome.ok none
    else OmdbOutcome.ok (some ⟨[("Title", Val.vstr "Found")], []⟩)

def c2run1 : OmdbRunResult :=
  omdbRun c2src none false none c2adapter ⟨0, "2024-01-01", []⟩

def c2out1 : DF := c2run1.fileWrites.headD emptyDF

/-- Claim C2 is false on the code, on the spec's own scenario run through
the OMDb stage: source `tt001, tt002, tt003`, destination empty, adapter
finds `tt001` and `tt003` and returns "not found" for `tt002`.  The first
run processes all 3, but `tt002`'s row has no `omdb_title`, so the second
run's pending set contains it and the second run processes 1 item, not 0. -/
theorem omdb_second_run_reprocesses_notfound :
    c2run1.processed.length = 3
    ∧ (omdbGetItemsToProcess c2src c2out1).length = 1
    ∧ (omdbRun c2src (some c2out1) false none c2adapter
        ⟨3, "2024-01-01", []⟩).processed.length = 1 := by
  refine ⟨?_, ?_, ?_⟩ <;> decide

/-- Claim C2 amended: only the TMDb stage is idempotent in this sense.
After a TMDb run over a source whose items all process without raising, and
whose final save did not raise, every source id is covered by the output
file (not-found rows included, since the stage's marker is mere row
presence), so an immediate second run computes an empty pending set and
processes zero items.  The OMDb stage re-processes every row whose lookup
found nothing (see the counterexample), and the DDD stage's save never
persists its new `ddd_*` columns, so its second run re-processes
everything. -/
theorem tmdb_second_run_processes_nothing (source dest0 : DF)
    (adapter : Val → TmdbItemOutcome)
    (hok : ∀ r ∈ source.rows, adapter (getCell r "const") ≠ TmdbItemOutcome.exn)
    (hdone : (tmdbRun source (some dest0) false none adapter).raisedAtEnd = false) :
    tmdbGetItemsToProcess source
        (tmdbFinalFile dest0 (tmdbRun source (some dest0) false none adapter)) = []
    ∧ (tmdbRun source
        (some (tmdbFinalFile dest0 (tmdbRun source (some dest0) false none adapter)))
        false none adapter).processed = [] := by
  have hrw : tmdbRun source (some dest0) false none adapter
      = tmdbRunCore adapter dest0 (tmdbGetItemsToProcess source dest0) := rfl
  rw [hrw] at hdone ⊢
  have h1 := tmdb_second_run_core source dest0 adapter hok hdone
  refine ⟨h1, ?_⟩
  have hrw2 : tmdbRun source
      (some (tmdbFinalFile dest0
        (tmdbRunCore adapter dest0 (tmdbGetItemsToProcess source dest0))))
      false none adapter
      = tmdbRunCore adapter
          (tmdbFinalFile dest0
            (tmdbRunCore adapter dest0 (tmdbGetItemsToProcess source dest0)))
          (tmdbGetItemsToProcess source
            (tmdbFinalFile dest0
              (tmdbRunCore adapter dest0 (tmdbGetItemsToProcess source dest0)))) :=
    rfl
  rw [hrw2, h1]
  rfl

def w2src : DF :=
  ⟨["const", "title"],
   [[("const", Val.vstr "tt1"), ("title", Val.vstr "A")],
    [("const", Val.vstr "tt2"), ("title", Val.vstr "B")],
    [("const", Val.vstr "tt3"), ("title", Val.vstr "C")]]⟩

def w2dest0 : DF :=
  ⟨["const", "title"], [[("const", Val.vstr "tt3"), ("title", Val.vstr "C")]]⟩

def w2adapter : Val → TmdbItemOutcome :=
  fun v =>
    if v = Val.vstr "tt1" then
      TmdbItemOutcome.fetch (TmdbFetch.found MediaType.movie (some 5)
        (some ⟨[("title", Val.vstr "T")], ["Drama"], [], [], [], [], [], []⟩))
    else TmdbItemOutcome.fetch TmdbFetch.notFound

/-- Claim C2 witness: the amended statement on a resumed TMDb run (one id
already in the destination, one found, one not found): the second run's
pending set is empty and it processes zero items. -/
theorem tmdb_second_run_processes_nothing_witness :
    tmdbGetItemsToProcess w2src
        (tmdbFinalFile w2dest0 (tmdbRun w2src (some w2dest0) false none w2adapter))
      = []
    ∧ (tmdbRun w2src
        (some (tmdbFinalFile w2dest0
          (tmdbRun w2src (some w2dest0) false none w2adapter)))
        false none w2adapter).processed = [] :=
  tmdb_second_run_processes_nothing w2src w2dest0 w2adapter (by decide) (by decide)

end CineScope





